import Mathlib

/-!
Verification development for the invoice-extraction engine
(`invoice_extractor`): a shallow embedding of the Python modules
`utils.py`, `row_classifier.py`, `summary_detector.py`, `schema.py`,
`validator.py` and `text_table_parser.py`, together with theorems that
settle the specification claims about them.

Python strings are modelled as lists of characters (`PyStr`); Python
`decimal.Decimal` values are modelled exactly by sign/coefficient/exponent
(`PyDecimal`), with the special values NaN / sNaN / Infinity.  Character
classes (`\d`, `\s`, `str.lower`, ...) are modelled over ASCII, which covers
every string the repository manipulates.  Monetary arithmetic inside the
validator is exact decimal arithmetic on `PyDecimal`: Python `Decimal`
addition/subtraction at the default 28-digit context is exact for every
magnitude the validator sees, so no context rounding is modelled.
-/

/-! ## Character helpers (ASCII models of Python character classes) -/

abbrev PyStr := List Char

/-- Build a `PyStr` from a Lean string literal. -/
def pstr (s : String) : PyStr := s.data

/-- ASCII decimal digit (`\d`). -/
def isDigitC (c : Char) : Bool := 48 ≤ c.toNat && c.toNat ≤ 57

/-- Python `\s` over ASCII: space, tab, newline, carriage return,
vertical tab, form feed. -/
def isWsC (c : Char) : Bool :=
  c.toNat = 32 || c.toNat = 9 || c.toNat = 10 || c.toNat = 13 ||
  c.toNat = 11 || c.toNat = 12

def isUpperC (c : Char) : Bool := 65 ≤ c.toNat && c.toNat ≤ 90

def isLowerC (c : Char) : Bool := 97 ≤ c.toNat && c.toNat ≤ 122

/-- ASCII alphanumeric (the effect of `[A-Z0-9]` under `re.IGNORECASE`,
and of `[0-9A-Z]` after upper-casing). -/
def isAlnumC (c : Char) : Bool := isDigitC c || isUpperC c || isLowerC c

/-- ASCII model of `str.lower` on one character. -/
def toLowerC (c : Char) : Char :=
  if isUpperC c then Char.ofNat (c.toNat + 32) else c

/-- ASCII model of `str.upper` on one character. -/
def toUpperC (c : Char) : Char :=
  if isLowerC c then Char.ofNat (c.toNat - 32) else c

/-- Python `str.lower()`. -/
def pyLower (s : PyStr) : PyStr := s.map toLowerC

/-- Python `str.upper()`. -/
def pyUpper (s : PyStr) : PyStr := s.map toUpperC

/-- Python `str.strip()`: drop leading and trailing whitespace. -/
def pyStrip (s : PyStr) : PyStr :=
  ((s.dropWhile isWsC).reverse.dropWhile isWsC).reverse

/-- Does `pat` occur at position `i` of `hay`? -/
def matchesAt (hay pat : PyStr) (i : Nat) : Bool :=
  pat.isPrefixOf (hay.drop i)

/-- First position `≥ start` at which `pat` occurs in `hay`. -/
def subPosFrom (hay pat : PyStr) (start : Nat) : Option Nat :=
  (List.range (hay.length + 1)).find? (fun i => decide (start ≤ i) && matchesAt hay pat i)

/-- Substring test (Python `pat in hay`). -/
def containsSub (hay pat : PyStr) : Bool := (subPosFrom hay pat 0).isSome

/-- `" ".join(parts)`. -/
def joinSpace (parts : List PyStr) : PyStr :=
  match parts with
  | [] => []
  | p :: rest => p ++ (rest.foldl (fun acc q => acc ++ [' '] ++ q) [])

/-- Helper for `normSpaces`: the flag records whether we are inside a
whitespace run that has already emitted its single space. -/
def normSpacesAux : Bool → PyStr → PyStr
  | _, [] => []
  | inRun, c :: rest =>
      if isWsC c then
        if inRun then normSpacesAux true rest
        else ' ' :: normSpacesAux true rest
      else c :: normSpacesAux false rest

/-- `re.sub(r'\s+', ' ', s)`: collapse every whitespace run to one space. -/
def normSpaces (s : PyStr) : PyStr := normSpacesAux false s

/-! ## The Python `decimal.Decimal` model -/

/-- A Python `Decimal`: finite values carry sign, integer coefficient and
exponent; special values are signed infinities and (possibly signaling)
NaNs with a numeric payload. -/
inductive PyDecimal where
  | finite (neg : Bool) (coeff : Nat) (exp : Int)
  | infinity (neg : Bool)
  | nan (neg : Bool) (signaling : Bool) (payload : Nat)
deriving DecidableEq, Repr

def PyDecimal.isNan : PyDecimal → Bool
  | .nan _ _ _ => true
  | _ => false

/-- Numeric value of a finite decimal. -/
def PyDecimal.val : PyDecimal → ℚ
  | .finite neg c e => (if neg then -1 else 1) * (c : ℚ) * (10 : ℚ) ^ e
  | _ => 0

/-- Python `Decimal.__eq__`: numeric comparison; a quiet NaN compares
unequal to everything, a signaling NaN raises (`none`). -/
def pyEq (a b : PyDecimal) : Option Bool :=
  match a, b with
  | .nan _ true _, _ => none
  | _, .nan _ true _ => none
  | .nan _ _ _, _ => some false
  | _, .nan _ _ _ => some false
  | .infinity s, .infinity t => some (s == t)
  | .infinity _, .finite _ _ _ => some false
  | .finite _ _ _, .infinity _ => some false
  | .finite n c e, .finite n' c' e' =>
      some (decide (PyDecimal.val (.finite n c e) = PyDecimal.val (.finite n' c' e')))

/-- Python `abs(Decimal)`. -/
def pyAbs : PyDecimal → PyDecimal
  | .finite _ c e => .finite false c e
  | .infinity _ => .infinity false
  | .nan n s p => .nan n s p

/-- Decimal digit to character. -/
def digitChar (d : Nat) : Char :=
  match d with
  | 0 => '0' | 1 => '1' | 2 => '2' | 3 => '3' | 4 => '4'
  | 5 => '5' | 6 => '6' | 7 => '7' | 8 => '8' | 9 => '9'
  | _ => '0'

/-- Numeric value of an ASCII digit character. -/
def charVal (c : Char) : Nat := c.toNat - 48

/-- Little-endian base-10 digits of `n`, computed with explicit fuel so the
kernel can evaluate it (`Nat.digits` is well-founded and does not reduce). -/
def natDigitsRev (fuel n : Nat) : List Nat :=
  match fuel with
  | 0 => []
  | fuel + 1 => if n = 0 then [] else n % 10 :: natDigitsRev fuel (n / 10)

/-- `natDigitsRev` with enough fuel agrees with `Nat.digits 10`. -/
theorem natDigitsRev_eq_digits (fuel n : Nat) (h : n ≤ fuel) :
    natDigitsRev fuel n = Nat.digits 10 n := by
  induction fuel generalizing n with
  | zero =>
      interval_cases n
      simp [natDigitsRev]
  | succ fuel ih =>
      by_cases hn : n = 0
      · simp [natDigitsRev, hn]
      · rw [natDigitsRev, if_neg hn, Nat.digits_def' (by norm_num) (Nat.pos_of_ne_zero hn),
          ih (n / 10) ?_]
        have := Nat.div_le_self n 10
        have : n / 10 < n := Nat.div_lt_self (Nat.pos_of_ne_zero hn) (by norm_num)
        omega

/-- Decimal digit characters of `n` (`str(int)`): most significant first,
`"0"` for zero. -/
def digitsOf (n : Nat) : PyStr :=
  if n = 0 then ['0'] else ((natDigitsRev n n).reverse).map digitChar

theorem digitsOf_eq (n : Nat) (h : n ≠ 0) :
    digitsOf n = ((Nat.digits 10 n).reverse).map digitChar := by
  rw [digitsOf, if_neg h, natDigitsRev_eq_digits n n le_rfl]

/-- Horner evaluation of a big-endian digit-character list (`int(s)`). -/
def natFromDigitChars (s : PyStr) : Nat :=
  s.foldl (fun a c => 10 * a + charVal c) 0

/-! ### The `Decimal(str)` constructor

Model of the CPython decimal string grammar: optional sign, then either a
numeric part (requiring the lookahead digit-or-dot-digit), `Inf`/`Infinity`,
or `[s]NaN` with optional diagnostic digits; case-insensitive keywords,
surrounding whitespace stripped, underscores removed (PEP 515 handling as in
`_pydecimal`). -/

/-- `(?=\d|\.\d)` lookahead. -/
def lookNum : PyStr → Bool
  | c :: rest =>
      if isDigitC c then true
      else if c = '.' then
        match rest with
        | d :: _ => isDigitC d
        | [] => false
      else false
  | [] => false

/-- Parse `(E[-+]?\d+)?` at end of string; returns the exponent. -/
def parseExpPart (s : PyStr) : Option Int :=
  match s with
  | [] => some 0
  | e :: t =>
      if e = 'E' || e = 'e' then
        let (sgn, t2) : Int × PyStr :=
          match t with
          | '+' :: u => (1, u)
          | '-' :: u => (-1, u)
          | u => (1, u)
        let ds := t2.takeWhile isDigitC
        if ds = [] || t2.dropWhile isDigitC ≠ [] then none
        else some (sgn * (natFromDigitChars ds : Int))
      else none

/-- Numeric alternative of the grammar (after the sign). -/
def parseNumericBody (neg : Bool) (s : PyStr) : Option PyDecimal :=
  let ip := s.takeWhile isDigitC
  let r1 := s.dropWhile isDigitC
  let (fp, r2, hadDot) : PyStr × PyStr × Bool :=
    match r1 with
    | '.' :: t => (t.takeWhile isDigitC, t.dropWhile isDigitC, true)
    | _ => ([], r1, false)
  match parseExpPart r2 with
  | none => none
  | some ex =>
      some (.finite neg (natFromDigitChars (ip ++ fp))
        (ex - (if hadDot then (fp.length : Int) else 0)))

/-- `[s]NaN\d*` alternative (after the sign). -/
def parseNanBody (neg : Bool) (s : PyStr) : Option PyDecimal :=
  let (sig, t) : Bool × PyStr :=
    match s with
    | c :: u => if c = 's' || c = 'S' then (true, u) else (false, s)
    | [] => (false, s)
  if (pstr "nan").isPrefixOf (pyLower t) then
    let rest := t.drop 3
    if rest.all isDigitC then some (.nan neg sig (natFromDigitChars rest))
    else none
  else none

/-- The optional leading sign (`[-+]?`): the parsed sign and the rest. -/
def signSplit (s : PyStr) : Bool × PyStr :=
  match s with
  | '+' :: t => (false, t)
  | '-' :: t => (true, t)
  | t => (false, t)

/-- `Decimal(value)` on a string: `some` Decimal or `none` for
`InvalidOperation`. -/
def decimalOfString (s0 : PyStr) : Option PyDecimal :=
  let s := (pyStrip s0).filter (fun c => c ≠ '_')
  let neg := (signSplit s).1
  let s1 := (signSplit s).2
  if lookNum s1 then parseNumericBody neg s1
  else if pyLower s1 = pstr "inf" || pyLower s1 = pstr "infinity" then
    some (.infinity neg)
  else parseNanBody neg s1

/-! ### `str(Decimal)`: the to-scientific-string algorithm -/

/-- `"E%+d"` rendering of the exponent part. -/
def expPartStr (k : Int) : PyStr :=
  'E' :: (if k < 0 then '-' :: digitsOf k.natAbs else '+' :: digitsOf k.natAbs)

/-- `str(Decimal)` (engineering flag off), following the to-scientific-string
algorithm: coefficient digits are placed around a decimal point at
`dotplace`, with an exponent part when the point is not at `leftdigits`. -/
def toSciString (d : PyDecimal) : PyStr :=
  match d with
  | .infinity neg => (if neg then ['-'] else []) ++ pstr "Infinity"
  | .nan neg sig p =>
      (if neg then ['-'] else []) ++ (if sig then pstr "sNaN" else pstr "NaN") ++
      (if p = 0 then [] else digitsOf p)
  | .finite neg c e =>
      let ds := digitsOf c
      let leftdigits : Int := e + ds.length
      let dotplace : Int :=
        if e ≤ 0 && leftdigits > -6 then leftdigits else 1
      let intpart : PyStr :=
        if dotplace ≤ 0 then ['0']
        else if dotplace ≥ (ds.length : Int) then
          ds ++ List.replicate (dotplace - ds.length).toNat '0'
        else ds.take dotplace.toNat
      let fracpart : PyStr :=
        if dotplace ≥ (ds.length : Int) ∧ 0 < dotplace then []
        else if dotplace ≤ 0 then
          '.' :: (List.replicate (-dotplace).toNat '0' ++ ds)
        else '.' :: ds.drop dotplace.toNat
      let exppart : PyStr :=
        if leftdigits = dotplace then [] else expPartStr (leftdigits - dotplace)
      (if neg then ['-'] else []) ++ intpart ++ fracpart ++ exppart

/-! ### `Decimal.quantize(Decimal("0.01"))` -/

inductive RoundingMode where
  | halfEven
  | halfUp
deriving DecidableEq

/-- Round `c / 10^k` to an integer under the given mode (the sign is handled
outside; both modes are symmetric about zero). -/
def roundCoeff (mode : RoundingMode) (c : Nat) (k : Nat) : Nat :=
  let q := c / 10 ^ k
  let r := c % 10 ^ k
  match mode with
  | .halfUp => if 2 * r ≥ 10 ^ k then q + 1 else q
  | .halfEven =>
      if 2 * r > 10 ^ k then q + 1
      else if 2 * r < 10 ^ k then q
      else if q % 2 = 0 then q else q + 1

/-- Number of decimal digits of a coefficient (1 for zero). -/
def coeffDigits (n : Nat) : Nat := (digitsOf n).length

/-- `d.quantize(Decimal("0.01"))` under `mode`: `none` models a raised
`InvalidOperation` (infinite operand, or a result exceeding the default
28-digit context precision); quiet NaNs propagate. -/
def pyQuantize2 (mode : RoundingMode) (d : PyDecimal) : Option PyDecimal :=
  match d with
  | .infinity _ => none
  | .nan _ true _ => none
  | .nan n _ p => some (.nan n false p)
  | .finite neg c e =>
      let c' : Nat :=
        if e ≥ -2 then c * 10 ^ (e + 2).toNat
        else roundCoeff mode c (-(e + 2)).toNat
      if coeffDigits c' > 28 then none else some (.finite neg c' (-2))

/-! ## `utils.py` -/

/-- The blank/placeholder strings recognized by `parse_decimal`. -/
def blankStrings : List PyStr :=
  [pstr "", pstr "—", pstr "-", pstr "–", pstr "N/A", pstr "n/a",
   pstr "NA", pstr "na", pstr "None", pstr "none"]

/-- `re.sub(r'[₹$€£¥]', '', text)`. -/
def stripCurrency (s : PyStr) : PyStr :=
  s.filter (fun c => !(c = '₹' || c = '$' || c = '€' || c = '£' || c = '¥'))

/-- `re.match(r'^\((.+)\)$', text)` rewrite: `(inner)` becomes `-inner`.
`.` does not match a newline; the input here is already stripped, so the
`$`-before-final-newline case cannot arise. -/
def parenNeg (s : PyStr) : PyStr :=
  match s with
  | '(' :: rest =>
      if rest ≠ [] ∧ rest.getLast? = some ')' ∧ rest.dropLast ≠ [] ∧
         (rest.dropLast).all (fun c => c ≠ '\n') then
        '-' :: rest.dropLast
      else s
  | _ => s

/-- `utils.parse_decimal`: strip, recognize blanks, strip currency glyphs,
rewrite a parenthesized negative, drop thousands separators and percent
signs, then construct the `Decimal`, defaulting to 0.00 on failure. -/
def parse_decimal (text : PyStr) : PyDecimal :=
  let t := pyStrip text
  if t ∈ blankStrings then .finite false 0 (-2)
  else
    match decimalOfString (pyStrip
        (((parenNeg (pyStrip (stripCurrency t))).filter
          (fun c => c ≠ ',')).filter (fun c => c ≠ '%'))) with
    | some d => d
    | none => .finite false 0 (-2)

/-- The blank list used by `parse_percentage`. -/
def pctBlankStrings : List PyStr :=
  [pstr "", pstr "—", pstr "-", pstr "–", pstr "N/A", pstr "n/a"]

/-- `utils.parse_percentage`. -/
def parse_percentage (text : PyStr) : PyDecimal :=
  let t := pyStrip text
  if t ∈ pctBlankStrings then .finite false 0 (-2)
  else
    let t := pyStrip (t.filter (fun c => c ≠ '%'))
    match decimalOfString t with
    | some d => d
    | none => .finite false 0 (-2)

example : parse_decimal (pstr "1,234.56") = .finite false 123456 (-2) := by decide
example : parse_decimal (pstr "₹1234.56") = .finite false 123456 (-2) := by decide
example : parse_decimal (pstr "(50.00)") = .finite true 5000 (-2) := by decide
example : parse_decimal (pstr "—") = .finite false 0 (-2) := by decide
example : parse_decimal (pstr "N/A") = .finite false 0 (-2) := by decide
example : parse_decimal (pstr "NaN") = .nan false false 0 := by decide
example : toSciString (.finite false 0 (-2)) = pstr "0.00" := by decide
example : toSciString (.finite false 123456 (-2)) = pstr "1234.56" := by decide
example : toSciString (.finite false 1 3) = pstr "1E+3" := by decide
example : toSciString (.finite true 5 (-9)) = pstr "-5E-9" := by decide
example : pyQuantize2 .halfEven (.finite false 100125 (-3)) =
    some (.finite false 10012 (-2)) := by decide
example : pyQuantize2 .halfUp (.finite false 100125 (-3)) =
    some (.finite false 10013 (-2)) := by decide

/-- Sum view of `Except`, used to derive decidable equality. -/
def exceptToSum {ε α : Type} : Except ε α → ε ⊕ α
  | .error e => .inl e
  | .ok a => .inr a

instance {ε α : Type} [DecidableEq ε] [DecidableEq α] : DecidableEq (Except ε α) :=
  fun a b =>
    decidable_of_iff (exceptToSum a = exceptToSum b) (by
      cases a <;> cases b <;> simp [exceptToSum])

/-! ## `row_classifier.py` -/

/-- A `pandas` row is modelled as an association list from column name to
the cell's string value (`str(row.get(col, dflt))`). -/
abbrev Row := List (PyStr × PyStr)

/-- `row.get(col, dflt)`. -/
def rowGet (r : Row) (col : PyStr) (dflt : PyStr) : PyStr :=
  match r.find? (fun p => p.1 == col) with
  | some p => p.2
  | none => dflt

def ROW_TYPE_LINE_ITEM : PyStr := pstr "line_item"

def ROW_TYPE_SUMMARY : PyStr := pstr "summary"

def ROW_TYPE_TOTAL : PyStr := pstr "total"

/-- Row-type decision of the classification loop body: the first-match
`for`/`break` loops over the keyword lists are first-match existence
checks. -/
def classifyDesc (desc : PyStr) (summary_keywords exclude_keywords : List PyStr) : PyStr :=
  if exclude_keywords.any (fun k => containsSub desc (pyLower k)) then ROW_TYPE_TOTAL
  else if summary_keywords.any (fun k => containsSub desc (pyLower k)) then ROW_TYPE_SUMMARY
  else ROW_TYPE_LINE_ITEM

/-- `row_classifier.classify_rows`; the DataFrame index of `iterrows` is
modelled as the row position. -/
def classify_rows (df : List Row) (summary_keywords exclude_keywords : List PyStr)
    (description_column : PyStr) : List (Nat × PyStr × Row) :=
  df.enum.map (fun p =>
    let desc := pyLower (pyStrip (rowGet p.2 description_column (pstr "")))
    (p.1, classifyDesc desc summary_keywords exclude_keywords, p.2))

/-! ## `summary_detector.py` -/

inductive SummaryError where
  | missingField
  | invalidOperation
deriving DecidableEq, Repr

/-- `summary_detector.detect_grand_total`: first TOTAL-tagged row, else
`MissingFieldError`; `quantize(Decimal("0.01"))` under the default context
rounding (`ROUND_HALF_EVEN`). -/
def detect_grand_total (classified_rows : List (Nat × PyStr × Row)) (total_column : PyStr) :
    Except SummaryError (PyDecimal × PyDecimal) :=
  match classified_rows.find? (fun e => e.2.1 == ROW_TYPE_TOTAL) with
  | none => .error .missingField
  | some e =>
      let raw_total_str := pyStrip (rowGet e.2.2 total_column (pstr "0"))
      let grand_total_raw := parse_decimal raw_total_str
      match pyQuantize2 .halfEven grand_total_raw with
      | none => .error .invalidOperation
      | some grand_total_rounded => .ok (grand_total_raw, grand_total_rounded)

/-! ## `schema.py` -/

inductive GSTError where
  | invalidFormat
deriving DecidableEq, Repr

/-- `ExtractedInvoice.validate_gst`: strip and upper-case, then accept the
sentinel `"UNREGISTERED"` or a string matching `^[0-9A-Z]{15}$`. -/
def validate_gst (v : PyStr) : Except GSTError PyStr :=
  let v := pyUpper (pyStrip v)
  if v = pstr "UNREGISTERED" then .ok v
  else if !(v.length == 15 && v.all (fun c => isDigitC c || isUpperC c)) then
    .error .invalidFormat
  else .ok v

/-! ### Exact `Decimal` arithmetic used by the validator

Addition, subtraction, absolute value and order comparison on finite
decimals, computed over aligned integer coefficients; special operands
(which no validator claim exercises) are sent to NaN / `false`. -/

/-- `i * 10 ^ k` by structural recursion (kernel-evaluable). -/
def mulPow10 (i : Int) : Nat → Int
  | 0 => i
  | k + 1 => mulPow10 (i * 10) k

/-- Signed integer coefficient. -/
def decSigned (neg : Bool) (c : Nat) : Int := if neg then -(c : Int) else (c : Int)

/-- Coefficients of two finite decimals aligned at the smaller exponent. -/
def alignedPair (a b : PyDecimal) : Int × Int × Int :=
  match a, b with
  | .finite na ca ea, .finite nb cb eb =>
      let m := min ea eb
      (mulPow10 (decSigned na ca) (ea - m).toNat,
       mulPow10 (decSigned nb cb) (eb - m).toNat, m)
  | _, _ => (0, 0, 0)

/-- Exact `Decimal` addition (finite operands). -/
def decAdd (a b : PyDecimal) : PyDecimal :=
  match a, b with
  | .finite _ _ _, .finite _ _ _ =>
      let (ia, ib, m) := alignedPair a b
      let s := ia + ib
      .finite (decide (s < 0)) s.natAbs m
  | _, _ => .nan false false 0

/-- Exact `Decimal` negation. -/
def decNeg (a : PyDecimal) : PyDecimal :=
  match a with
  | .finite n c e => .finite (!n) c e
  | .infinity n => .infinity (!n)
  | .nan n s p => .nan n s p

/-- Exact `Decimal` subtraction (finite operands). -/
def decSub (a b : PyDecimal) : PyDecimal := decAdd a (decNeg b)

/-- Value-level `Decimal` strict order (finite operands; NaN comparisons,
which raise in Python, return `false` here and are outside every claim). -/
def decLt (a b : PyDecimal) : Bool :=
  match a, b with
  | .finite _ _ _, .finite _ _ _ =>
      let (ia, ib, _) := alignedPair a b
      decide (ia < ib)
  | _, _ => false

/-- `a > b` on decimals. -/
def decGt (a b : PyDecimal) : Bool := decLt b a

/-- Value-level `Decimal` equality (finite operands). -/
def decValEq (a b : PyDecimal) : Bool :=
  match a, b with
  | .finite _ _ _, .finite _ _ _ =>
      let (ia, ib, _) := alignedPair a b
      decide (ia = ib)
  | _, _ => false

/-- `schema.LineItem`: monetary fields are exact decimals. -/
structure LineItem where
  description : PyStr
  gross_value : PyDecimal
  discount : PyDecimal
  net_value : PyDecimal
  cgst_rate : PyDecimal := .finite false 0 (-2)
  cgst_amount : PyDecimal := .finite false 0 (-2)
  sgst_rate : PyDecimal := .finite false 0 (-2)
  sgst_amount : PyDecimal := .finite false 0 (-2)
  igst_rate : PyDecimal := .finite false 0 (-2)
  igst_amount : PyDecimal := .finite false 0 (-2)
  cess_rate : PyDecimal := .finite false 0 (-2)
  cess_amount : PyDecimal := .finite false 0 (-2)
  total : PyDecimal
deriving DecidableEq

/-- `schema.ExtractedInvoice` (the fields the validator consults; the
invoice date is opaque to every claim and kept as a string). -/
structure ExtractedInvoice where
  invoice_number : PyStr
  invoice_date : PyStr
  vendor_name : PyStr
  vendor_gst : PyStr
  customer_name : PyStr
  state : PyStr
  line_items : List LineItem
  grand_total_raw : PyDecimal
  grand_total_rounded : PyDecimal
  order_id : Option PyStr := none
  hsn_code : Option PyStr := none
  tax_type : PyStr := pstr "cgst_sgst"
deriving DecidableEq

/-- Pydantic model construction: the `vendor_gst` field validator runs and
its (normalized) return value is stored. -/
def mkExtractedInvoice (inv : ExtractedInvoice) : Except GSTError ExtractedInvoice :=
  match validate_gst inv.vendor_gst with
  | .error e => .error e
  | .ok v => .ok { inv with vendor_gst := v }

/-! ## `validator.py` -/

def TOLERANCE : PyDecimal := .finite false 2 (-2)

inductive ValidationError where
  | missingField (field : PyStr)
  | noLineItems
  | netMismatch (index : Nat) (desc : PyStr) (net gross discount diff : PyDecimal)
  | totalTaxMismatch (index : Nat) (desc : PyStr) (total net tax diff : PyDecimal)
  | grossTotalMismatch (index : Nat) (desc : PyStr) (total gross discount diff : PyDecimal)
  | taxTotalMismatch (index : Nat) (desc : PyStr) (total net igst cess diff : PyDecimal)
  | grandTotalMismatch (lineSum raw diff : PyDecimal)
deriving DecidableEq

/-- `validator._check_required_fields`: the dict preserves insertion order,
and the loop raises at the first blank value. -/
def check_required_fields (inv : ExtractedInvoice) : Except ValidationError Unit :=
  let required : List (PyStr × PyStr) :=
    [(pstr "invoice_number", inv.invoice_number),
     (pstr "vendor_name", inv.vendor_name),
     (pstr "vendor_gst", inv.vendor_gst),
     (pstr "customer_name", inv.customer_name),
     (pstr "state", inv.state)]
  match required.find? (fun p => p.2.isEmpty || (pyStrip p.2).isEmpty) with
  | some p => .error (.missingField p.1)
  | none => .ok ()

/-- `validator._validate_line_item_arithmetic`: each mismatch error carries
the item index and description plus the values and numeric difference cited
by the exception message. -/
def validate_line_item_arithmetic (item : LineItem) (index : Nat) (tax_type : PyStr) :
    Except ValidationError Unit :=
  if tax_type = pstr "igst" then
    let expected_total_from_gross := decSub item.gross_value item.discount
    let gross_diff := pyAbs (decSub expected_total_from_gross item.total)
    if decGt gross_diff TOLERANCE then
      .error (.grossTotalMismatch index item.description item.total item.gross_value
        item.discount gross_diff)
    else
      let expected_total_from_tax := decAdd (decAdd item.net_value item.igst_amount) item.cess_amount
      let tax_diff := pyAbs (decSub expected_total_from_tax item.total)
      if decGt tax_diff TOLERANCE then
        .error (.taxTotalMismatch index item.description item.total item.net_value
          item.igst_amount item.cess_amount tax_diff)
      else .ok ()
  else
    let expected_net := decSub item.gross_value item.discount
    let net_diff := pyAbs (decSub expected_net item.net_value)
    if decGt net_diff TOLERANCE then
      .error (.netMismatch index item.description item.net_value item.gross_value
        item.discount net_diff)
    else
      let expected_total := decAdd (decAdd item.net_value item.cgst_amount) item.sgst_amount
      let total_diff := pyAbs (decSub expected_total item.total)
      if decGt total_diff TOLERANCE then
        .error (.totalTaxMismatch index item.description item.total item.net_value
          (decSub expected_total item.net_value) total_diff)
      else .ok ()

/-- The `for i, item in enumerate(...)` loop of `validate_invoice`. -/
def validate_items_loop : List (Nat × LineItem) → PyStr → Except ValidationError Unit
  | [], _ => .ok ()
  | (i, it) :: rest, tt => do
      validate_line_item_arithmetic it i tt
      validate_items_loop rest tt

/-- `validator._validate_grand_total`; `sum(...)` starts from the integer 0
(`Decimal(0)` under decimal coercion). -/
def validate_grand_total (inv : ExtractedInvoice) : Except ValidationError Unit :=
  let line_items_sum := (inv.line_items.map (fun it => it.total)).foldl decAdd (.finite false 0 0)
  let diff := pyAbs (decSub line_items_sum inv.grand_total_raw)
  if decGt diff TOLERANCE then
    .error (.grandTotalMismatch line_items_sum inv.grand_total_raw diff)
  else .ok ()

/-- `validator.validate_invoice`. -/
def validate_invoice (inv : ExtractedInvoice) : Except ValidationError Unit := do
  check_required_fields inv
  if inv.line_items.length = 0 then
    Except.error .noLineItems
  else do
    validate_items_loop inv.line_items.enum inv.tax_type
    validate_grand_total inv

/-! ## `text_table_parser.py`: `_extract_flipkart_line_items`

Each regular expression of the source is implemented as an explicit scanner
over the line's characters.  Every pattern here is deterministic under
maximal-munch because each repeated character class is disjoint from the
token that follows it, so the backtracking engine and the scanners below
accept the same strings with the same captures; searches try start
positions left to right exactly as `re.search` does. -/

/-- `\s*` from position `i`: position after the whitespace run. -/
def wsStarFrom (l : PyStr) (i : Nat) : Nat :=
  i + ((l.drop i).takeWhile isWsC).length

/-- `\s+` from position `i`. -/
def wsPlusFrom (l : PyStr) (i : Nat) : Option Nat :=
  let n := ((l.drop i).takeWhile isWsC).length
  if n = 0 then none else some (i + n)

/-- `\d+` (maximal) from position `i`. -/
def digitsPlusFrom (l : PyStr) (i : Nat) : Option Nat :=
  let n := ((l.drop i).takeWhile isDigitC).length
  if n = 0 then none else some (i + n)

/-- Literal `pat` at position `i`: position after it. -/
def litAt (l pat : PyStr) (i : Nat) : Option Nat :=
  if matchesAt l pat i then some (i + pat.length) else none

/-- Does some start position in `l` satisfy `f`? (`re.search`). -/
def searchAny (l : PyStr) (f : Nat → Bool) : Bool :=
  (List.range (l.length + 1)).any f

/-- `re.search(a + r'\s*' + b, l)` for literals `a`, `b`. -/
def searchLitWsLit (l a b : PyStr) : Bool :=
  searchAny l (fun i => (((litAt l a i).map (wsStarFrom l)).bind (litAt l b)).isSome)

/-- `re.search(r'handling\s*fee.*0\.00', l)`. -/
def searchHandlingFee (l : PyStr) : Bool :=
  searchAny l (fun i =>
    ((((litAt l (pstr "handling") i).map (wsStarFrom l)).bind
      (litAt l (pstr "fee"))).bind (fun k => subPosFrom l (pstr "0.00") k)).isSome)

/-- `re.search(r'e\.\s*&\s*o\.e', l)`. -/
def searchEOE (l : PyStr) : Bool :=
  searchAny l (fun i =>
    (((((litAt l (pstr "e.") i).map (wsStarFrom l)).bind
      (litAt l (pstr "&"))).map (wsStarFrom l)).bind (litAt l (pstr "o.e"))).isSome)

/-- `re.search(r'page\s+\d+\s+of\s+\d+', l)`. -/
def searchPageOf (l : PyStr) : Bool :=
  searchAny l (fun i =>
    ((((((litAt l (pstr "page") i).bind (wsPlusFrom l)).bind
      (digitsPlusFrom l)).bind (wsPlusFrom l)).bind
      ((litAt l (pstr "of")) ∘ id)).bind (wsPlusFrom l)).bind (digitsPlusFrom l) |>.isSome)

/-- `re.search(r'^the\s+goods\s+sold', l)`. -/
def searchTheGoods (l : PyStr) : Bool :=
  (((((litAt l (pstr "the") 0).bind (wsPlusFrom l)).bind
    (litAt l (pstr "goods"))).bind (wsPlusFrom l)).bind (litAt l (pstr "sold"))).isSome

/-- The `skip_patterns` list, each searched case-insensitively (the line is
lower-cased once; `[A-Z0-9]` under `re.IGNORECASE` is ASCII alphanumeric). -/
def isSkipLine (ls : PyStr) : Bool :=
  let l := pyLower ls
  let alnumRun := l.takeWhile isAlnumC
  let afterRun := l.drop alnumRun.length
  (pstr "fsn:").isPrefixOf l ||
  containsSub l (pstr "imei") ||
  (match l with
   | '|' :: _ => (subPosFrom l (pstr "cess") 1).isSome
   | _ => false) ||
  containsSub l (pstr "fksb_") ||
  searchHandlingFee l ||
  searchLitWsLit l (pstr "total") (pstr "items") ||
  searchLitWsLit l (pstr "total") (pstr "price") ||
  searchLitWsLit l (pstr "total") (pstr "qty") ||
  searchLitWsLit l (pstr "all") (pstr "values") ||
  searchLitWsLit l (pstr "grand") (pstr "total") ||
  searchLitWsLit l (pstr "seller") (pstr "registered") ||
  containsSub l (pstr "fssai") ||
  searchLitWsLit l (pstr "ordered") (pstr "through") ||
  containsSub l (pstr "authorized") ||
  searchEOE l ||
  containsSub l (pstr "signature") ||
  searchLitWsLit l (pstr "returns") (pstr "policy") ||
  searchLitWsLit l (pstr "regd.") (pstr "office") ||
  searchLitWsLit l (pstr "contact") (pstr "flipkart") ||
  searchPageOf l ||
  (match l with
   | '|' :: rest => (pstr "cess").isPrefixOf (rest.dropWhile isWsC)
   | _ => false) ||
  (match l with
   | '|' :: rest => rest.all isWsC
   | _ => false) ||
  searchTheGoods l ||
  (decide (10 ≤ alnumRun.length) && afterRun.isEmpty) ||
  (decide (10 ≤ alnumRun.length) &&
    (match afterRun with | c :: _ => isWsC c | [] => false))

/-- Table-header test:
`re.search(r'(?:Product|Particulars).*(?:Qty|Quantity).*(?:Total)', ls, re.IGNORECASE)`. -/
def isTableHeader (ls : PyStr) : Bool :=
  let l := pyLower ls
  searchAny l (fun i =>
    (matchesAt l (pstr "product") i &&
      searchAny l (fun k => decide (i + 7 ≤ k) &&
        ((matchesAt l (pstr "qty") k && (subPosFrom l (pstr "total") (k + 3)).isSome) ||
         (matchesAt l (pstr "quantity") k && (subPosFrom l (pstr "total") (k + 8)).isSome)))) ||
    (matchesAt l (pstr "particulars") i &&
      searchAny l (fun k => decide (i + 11 ≤ k) &&
        ((matchesAt l (pstr "qty") k && (subPosFrom l (pstr "total") (k + 3)).isSome) ||
         (matchesAt l (pstr "quantity") k && (subPosFrom l (pstr "total") (k + 8)).isSome)))))

/-- Sub-header skip: `re.match(r'^\s*(?:Amount|Value|₹|\s)+\s*$', ls)`
(case-sensitive); the fuel argument only bounds the recursion. -/
def subHeaderAux : Nat → PyStr → Bool → Bool
  | 0, s, seen => s.isEmpty && seen
  | fuel + 1, s, seen =>
      match s with
      | [] => seen
      | c :: rest =>
          if (pstr "Amount").isPrefixOf s then subHeaderAux fuel (s.drop 6) true
          else if (pstr "Value").isPrefixOf s then subHeaderAux fuel (s.drop 5) true
          else if c = '₹' || isWsC c then subHeaderAux fuel rest true
          else false

def isSubHeaderLine (ls : PyStr) : Bool := subHeaderAux ls.length ls false

/-- `re.search(r'IGST:\s*([\d.]+)\s*%', ls)` (case-sensitive): the captured
rate digits at the leftmost completing occurrence. -/
def igstTryAt (ls : PyStr) (i : Nat) : Option PyStr :=
  if matchesAt ls (pstr "IGST:") i then
    let rest := (ls.drop (i + 5)).dropWhile isWsC
    let run := rest.takeWhile (fun c => isDigitC c || c = '.')
    if run = [] then none
    else
      match (rest.drop run.length).dropWhile isWsC with
      | '%' :: _ => some run
      | _ => none
  else none

def igstSearch (ls : PyStr) : Option PyStr :=
  (List.range (ls.length + 1)).findSome? (fun i => igstTryAt ls i)

/-- Completion of `\s*[:]\s*(\d+)` from position `j`. -/
def hsnCompleteFrom (ls : PyStr) (j : Nat) : Option PyStr :=
  match (ls.drop j).dropWhile isWsC with
  | ':' :: r2 =>
      let ds := (r2.dropWhile isWsC).takeWhile isDigitC
      if ds = [] then none else some ds
  | _ => none

/-- `re.search(r'HSN(?:/SAC)?\s*[:]\s*(\d+)', ls)`. -/
def hsnTryAt (ls : PyStr) (i : Nat) : Option PyStr :=
  if matchesAt ls (pstr "HSN") i then
    (if matchesAt ls (pstr "/SAC") (i + 3) then hsnCompleteFrom ls (i + 7) else none) <|>
      hsnCompleteFrom ls (i + 3)
  else none

def hsnSearch (ls : PyStr) : Option PyStr :=
  (List.range (ls.length + 1)).findSome? (fun i => hsnTryAt ls i)

/-- Captured groups of the numeric-column pattern. -/
structure NumGroups where
  qty : PyStr
  gross : PyStr
  discount : PyStr
  taxable : PyStr
  igstAmt : PyStr
  cess : Option PyStr
  total : PyStr
deriving DecidableEq, Repr

/-- One numeric token `[\d,]+\.?\d*`: the matched text and the rest. -/
def numTokenParse (s : PyStr) : Option (PyStr × PyStr) :=
  let run := s.takeWhile (fun c => isDigitC c || c = ',')
  if run = [] then none
  else
    match s.drop run.length with
    | '.' :: r2 =>
        let ds := r2.takeWhile isDigitC
        some (run ++ '.' :: ds, r2.drop ds.length)
    | rest => some (run, rest)

/-- Numeric token followed by `\s+`. -/
def numTokWs (s : PyStr) : Option (PyStr × PyStr) :=
  (numTokenParse s).bind (fun p =>
    let ws := p.2.takeWhile isWsC
    if ws = [] then none else some (p.1, p.2.drop ws.length))

/-- Tail of the pattern after the IGST-amount group: the greedy optional
cess group `(?:([\d,]+\.?\d*)\s+)?` then `([\d,]+\.?\d*)\s*$`, with the
regex engine's fallback to the no-cess alternative. -/
def finishNumMatch (q gross disc tax ig : PyStr) (r5 : PyStr) : Option NumGroups :=
  let fallback : Option NumGroups :=
    (numTokenParse r5).bind (fun p =>
      if p.2.all isWsC then some ⟨q, gross, disc, tax, ig, none, p.1⟩ else none)
  match numTokWs r5 with
  | some (cessTok, r6) =>
      match numTokenParse r6 with
      | some (tot, r7) =>
          if r7.all isWsC then some ⟨q, gross, disc, tax, ig, some cessTok, tot⟩
          else fallback
      | none => fallback
  | none => fallback

/-- Attempt the numeric-column pattern at the current position (after the
`\b`, which the caller checks): `(\d+)\s+` then gross, discount (optional
minus sign), taxable and IGST tokens each followed by `\s+`. -/
def tryNumMatchAt (s : PyStr) : Option NumGroups :=
  let q := s.takeWhile isDigitC
  if q = [] then none
  else
    let r0 := s.drop q.length
    let ws := r0.takeWhile isWsC
    if ws = [] then none
    else
      (numTokWs (r0.drop ws.length)).bind (fun p1 =>
        let (dneg, r2') : PyStr × PyStr :=
          match p1.2 with
          | '-' :: t => (['-'], t)
          | _ => ([], p1.2)
        ((numTokWs r2').map (fun p => (dneg ++ p.1, p.2))).bind (fun p2 =>
          (numTokWs p2.2).bind (fun p3 =>
            (numTokWs p3.2).bind (fun p4 =>
              finishNumMatch q p1.1 p2.1 p3.1 p4.1 p4.2))))

/-- `number_pattern.search`: leftmost start position (with a word boundary
before the quantity digits) at which the pattern matches, plus the groups. -/
def numberSearchAux : PyStr → PyStr → Option (Nat × NumGroups)
  | _, [] => none
  | revPre, c :: t =>
      let boundaryOk : Bool :=
        match revPre with
        | [] => true
        | p :: _ => !(isAlnumC p || p = '_')
      match (if boundaryOk then tryNumMatchAt (c :: t) else none) with
      | some g => some (revPre.length, g)
      | none => numberSearchAux (c :: revPre) t

def numberSearch (s : PyStr) : Option (Nat × NumGroups) := numberSearchAux [] s

/-- The summary captions recognized on a numeric-pattern line. -/
def summaryCaptions : List PyStr := [pstr "total", pstr "total price", pstr "grand total"]

/-- A line item emitted by the Flipkart parser (the source stores every
field as `str(...)` in a dict). -/
structure FlipItem where
  description : PyStr
  gross_value : PyStr
  discount : PyStr
  net_value : PyStr
  igst_rate : PyStr
  igst_amount : PyStr
  cess_amount : PyStr
  total : PyStr
deriving DecidableEq, Repr

/-- Scanner state after the table header has been found. -/
structure FlipState where
  items : List FlipItem
  descriptionParts : List PyStr
  igstRate : PyDecimal
  hsnCode : PyStr
deriving DecidableEq, Repr

def initFlipState : FlipState :=
  { items := [], descriptionParts := [], igstRate := .finite false 0 (-2), hsnCode := [] }

/-- Body of the scan loop for one line (after the table header). -/
def flipStep (st : FlipState) (line : PyStr) : FlipState :=
  let ls := pyStrip line
  if isSubHeaderLine ls then st
  else
    match igstSearch ls with
    | some rateStr => { st with igstRate := parse_percentage rateStr }
    | none =>
      match hsnSearch ls with
      | some h => { st with hsnCode := h }
      | none =>
        if isSkipLine ls then st
        else
          match numberSearch ls with
          | some (start, g) =>
              let lineTextBeforeNums := pyStrip (ls.take start)
              if pyLower lineTextBeforeNums ∈ summaryCaptions then
                { st with descriptionParts := [] }
              else
                let parts :=
                  if lineTextBeforeNums ≠ [] then st.descriptionParts ++ [lineTextBeforeNums]
                  else st.descriptionParts
                let description := normSpaces (pyStrip (joinSpace parts))
                if description = [] then { st with descriptionParts := [] }
                else
                  let cess := match g.cess with | some c => c | none => pstr "0"
                  let item : FlipItem :=
                    { description := if description ≠ [] then description else pstr "Item"
                      gross_value := toSciString (parse_decimal g.gross)
                      discount := toSciString (pyAbs (parse_decimal g.discount))
                      net_value := toSciString (parse_decimal g.taxable)
                      igst_rate := toSciString st.igstRate
                      igst_amount := toSciString (parse_decimal g.igstAmt)
                      cess_amount := toSciString (parse_decimal cess)
                      total := toSciString (parse_decimal g.total) }
                  { items := st.items ++ [item], descriptionParts := [],
                    igstRate := .finite false 0 (-2), hsnCode := [] }
          | none =>
              if !ls.isEmpty && decide (2 < ls.length) &&
                  (match ls with | c :: _ => !(c = '|' || c = '#') | [] => true) then
                { st with descriptionParts := st.descriptionParts ++ [ls] }
              else st

/-- `text.split('\n')`. -/
def splitLines (text : PyStr) : List PyStr := text.splitOn '\n'

/-- Loop phase before `table_started`: every line up to and including the
header line is consumed. -/
def findTableStart : List PyStr → Option (List PyStr)
  | [] => none
  | l :: rest => if isTableHeader (pyStrip l) then some rest else findTableStart rest

inductive TableError where
  | tableExtraction
deriving DecidableEq, Repr

/-- `text_table_parser._extract_flipkart_line_items`. -/
def extract_flipkart_line_items (text : PyStr) : Except TableError (List FlipItem) :=
  let lines := splitLines text
  let items : List FlipItem :=
    match findTableStart lines with
    | none => []
    | some rest => (rest.foldl flipStep initFlipState).items
  if items = [] then .error .tableExtraction else .ok items

/-! ## Claim C5: exclude keywords take priority over summary keywords -/

/-- C5: every row of the classification output whose trimmed lower-cased
description contains both an exclude keyword and a summary keyword as
substrings is tagged TOTAL and never SUMMARY, because exclude keywords are
checked first. -/
theorem claim_C5_exclude_priority (df : List Row)
    (summary_keywords exclude_keywords : List PyStr) (description_column : PyStr)
    (idx : Nat) (rt : PyStr) (row : Row)
    (hmem : (idx, rt, row) ∈ classify_rows df summary_keywords exclude_keywords
      description_column)
    (hex : ∃ k ∈ exclude_keywords,
      containsSub (pyLower (pyStrip (rowGet row description_column (pstr ""))))
        (pyLower k) = true)
    (hsum : ∃ k ∈ summary_keywords,
      containsSub (pyLower (pyStrip (rowGet row description_column (pstr ""))))
        (pyLower k) = true) :
    rt = ROW_TYPE_TOTAL ∧ rt ≠ ROW_TYPE_SUMMARY := by
  simp only [classify_rows, List.mem_map] at hmem
  obtain ⟨⟨i, r⟩, hpr, heq⟩ := hmem
  simp only [Prod.mk.injEq] at heq
  obtain ⟨hi, hrt, hrow⟩ := heq
  subst hrow
  obtain ⟨k, hk, hck⟩ := hex
  have hany : exclude_keywords.any
      (fun k => containsSub (pyLower (pyStrip (rowGet r description_column (pstr ""))))
        (pyLower k)) = true :=
    List.any_eq_true.mpr ⟨k, hk, hck⟩
  rw [← hrt, classifyDesc, if_pos hany]
  exact ⟨rfl, by decide⟩

/-- C5 witness: a concrete table with one row whose description holds both
an exclude keyword and a summary keyword; it is classified TOTAL. -/
theorem claim_C5_witness :
    ((0, ROW_TYPE_TOTAL, [(pstr "description", pstr "Total Value of Item(s) Total")]) ∈
      classify_rows [[(pstr "description", pstr "Total Value of Item(s) Total")]]
        [pstr "item(s) total"] [pstr "total value"] (pstr "description")) ∧
    ROW_TYPE_TOTAL = ROW_TYPE_TOTAL ∧ ROW_TYPE_TOTAL ≠ ROW_TYPE_SUMMARY := by
  refine ⟨by decide, ?_⟩
  exact claim_C5_exclude_priority
    [[(pstr "description", pstr "Total Value of Item(s) Total")]]
    [pstr "item(s) total"] [pstr "total value"] (pstr "description")
    0 ROW_TYPE_TOTAL [(pstr "description", pstr "Total Value of Item(s) Total")]
    (by decide)
    ⟨pstr "total value", by decide⟩
    ⟨pstr "item(s) total", by decide⟩

/-! ## Claim C6: first TOTAL row wins; no TOTAL row means MissingFieldError -/

/-- C6: the Grand-Total Detector scans in order: with no TOTAL-tagged row it
fails with MissingFieldError, and on a list that decomposes as
`pre ++ r :: post` with `r` the first TOTAL-tagged row the result is
computed from `r` alone (so with several TOTAL rows the first one wins). -/
theorem claim_C6_first_total_row (total_column : PyStr) :
    (∀ rows : List (Nat × PyStr × Row), (∀ e ∈ rows, e.2.1 ≠ ROW_TYPE_TOTAL) →
      detect_grand_total rows total_column = .error .missingField) ∧
    (∀ (pre post : List (Nat × PyStr × Row)) (r : Nat × PyStr × Row),
      (∀ e ∈ pre, e.2.1 ≠ ROW_TYPE_TOTAL) → r.2.1 = ROW_TYPE_TOTAL →
      detect_grand_total (pre ++ r :: post) total_column =
        detect_grand_total [r] total_column) := by
  constructor
  · intro rows hno
    have hfind : rows.find? (fun e => e.2.1 == ROW_TYPE_TOTAL) = none := by
      rw [List.find?_eq_none]
      intro x hx
      simp only [beq_iff_eq]
      exact hno x hx
    unfold detect_grand_total
    rw [hfind]
  · intro pre post r hpre hr
    have hfind : (pre ++ r :: post).find? (fun e => e.2.1 == ROW_TYPE_TOTAL) = some r := by
      induction pre with
      | nil =>
          simp only [List.nil_append]
          exact List.find?_cons_of_pos _ (by simp [hr])
      | cons a t ih =>
          simp only [List.cons_append]
          rw [List.find?_cons_of_neg _ (by simp [hpre a (List.mem_cons_self a t)])]
          exact ih (fun e he => hpre e (List.mem_cons_of_mem a he))
    have hfind1 : [r].find? (fun e => e.2.1 == ROW_TYPE_TOTAL) = some r :=
      List.find?_cons_of_pos _ (by simp [hr])
    unfold detect_grand_total
    rw [hfind, hfind1]

/-- C6 witness: with two TOTAL rows the first one (value 10) determines
the result, and an all-summary table yields the missing-field error. -/
theorem claim_C6_witness :
    detect_grand_total [(0, ROW_TYPE_SUMMARY, [(pstr "total", pstr "7")])] (pstr "total") =
      .error .missingField ∧
    detect_grand_total
      [(0, ROW_TYPE_LINE_ITEM, [(pstr "total", pstr "5")]),
       (1, ROW_TYPE_TOTAL, [(pstr "total", pstr "10")]),
       (2, ROW_TYPE_TOTAL, [(pstr "total", pstr "99")])] (pstr "total") =
      detect_grand_total [(1, ROW_TYPE_TOTAL, [(pstr "total", pstr "10")])] (pstr "total") :=
  ⟨(claim_C6_first_total_row (pstr "total")).1 _ (by decide),
   (claim_C6_first_total_row (pstr "total")).2
     [(0, ROW_TYPE_LINE_ITEM, [(pstr "total", pstr "5")])]
     [(2, ROW_TYPE_TOTAL, [(pstr "total", pstr "99")])]
     (1, ROW_TYPE_TOTAL, [(pstr "total", pstr "10")])
     (by decide) (by decide)⟩

/-! ## Claim C4: required-fields check precedes the line-item-count check -/

/-- C4: for every invoice whose customer name is blank and whose line-item
list is empty, validation fails with a MissingFieldError (for the first
blank required field) and never with NoLineItemsError. -/
theorem claim_C4_failfast_order (inv : ExtractedInvoice)
    (hc : pyStrip inv.customer_name = [])
    (hl : inv.line_items = []) :
    (∃ f, validate_invoice inv = .error (.missingField f)) ∧
      validate_invoice inv ≠ .error .noLineItems := by
  have hblank : (pyStrip inv.customer_name).isEmpty = true := by
    rw [hc]; rfl
  have hfind : ∃ f, check_required_fields inv = .error (.missingField f) := by
    unfold check_required_fields
    cases hfd : List.find? (fun p => p.2.isEmpty || (pyStrip p.2).isEmpty)
        [(pstr "invoice_number", inv.invoice_number),
         (pstr "vendor_name", inv.vendor_name),
         (pstr "vendor_gst", inv.vendor_gst),
         (pstr "customer_name", inv.customer_name),
         (pstr "state", inv.state)] with
    | none =>
        exfalso
        have hmem : (pstr "customer_name", inv.customer_name) ∈
            [(pstr "invoice_number", inv.invoice_number),
             (pstr "vendor_name", inv.vendor_name),
             (pstr "vendor_gst", inv.vendor_gst),
             (pstr "customer_name", inv.customer_name),
             (pstr "state", inv.state)] := by simp
        have := List.find?_eq_none.mp hfd _ hmem
        simp [hblank] at this
    | some q => exact ⟨q.1, by simp [hfd]⟩
  obtain ⟨f, hf⟩ := hfind
  have hval : validate_invoice inv = .error (.missingField f) := by
    unfold validate_invoice
    rw [hf]
    rfl
  exact ⟨⟨f, hval⟩, by rw [hval]; simp⟩

/-- C4 witness: a concrete invoice with a blank customer name and no line
items fails with MissingFieldError, not NoLineItemsError. -/
theorem claim_C4_witness :
    (∃ f, validate_invoice
      { invoice_number := pstr "INV1", invoice_date := pstr "01-01-2024",
        vendor_name := pstr "V", vendor_gst := pstr "UNREGISTERED",
        customer_name := pstr "  ", state := pstr "Karnataka",
        line_items := [], grand_total_raw := .finite false 0 (-2),
        grand_total_rounded := .finite false 0 (-2) } = .error (.missingField f)) ∧
    validate_invoice
      { invoice_number := pstr "INV1", invoice_date := pstr "01-01-2024",
        vendor_name := pstr "V", vendor_gst := pstr "UNREGISTERED",
        customer_name := pstr "  ", state := pstr "Karnataka",
        line_items := [], grand_total_raw := .finite false 0 (-2),
        grand_total_rounded := .finite false 0 (-2) } ≠ .error .noLineItems :=
  claim_C4_failfast_order _ (by decide) (by decide)

/-! ## Claim C1: grand-total rounding mode -/

/-- C1 counterexample: the detector rounds with the default context mode
(ROUND_HALF_EVEN), so the raw total 100.125 becomes 100.12, not the 100.13
that round-half-up (as `main.py` uses elsewhere) would give. -/
theorem claim_C1_counterexample :
    detect_grand_total [(0, ROW_TYPE_TOTAL, [(pstr "total", pstr "100.125")])] (pstr "total") =
      .ok (.finite false 100125 (-3), .finite false 10012 (-2)) ∧
    pyQuantize2 .halfUp (.finite false 100125 (-3)) = some (.finite false 10013 (-2)) ∧
    (PyDecimal.finite false 10012 (-2)) ≠ .finite false 10013 (-2) :=
  ⟨by decide, by decide, by decide⟩

/-- C1 (amended): whenever the detector succeeds, the rounded grand total is
the raw total quantized to 2 decimal places under ROUND_HALF_EVEN
(banker's rounding), the default context rounding of `quantize`. -/
theorem claim_C1_round_half_even (rows : List (Nat × PyStr × Row)) (col : PyStr)
    (raw rounded : PyDecimal)
    (h : detect_grand_total rows col = .ok (raw, rounded)) :
    pyQuantize2 .halfEven raw = some rounded := by
  unfold detect_grand_total at h
  cases hf : rows.find? (fun e => e.2.1 == ROW_TYPE_TOTAL) with
  | none => rw [hf] at h; exact absurd h (by simp)
  | some e =>
      rw [hf] at h
      simp only at h
      cases hq : pyQuantize2 .halfEven
          (parse_decimal (pyStrip (rowGet e.2.2 col (pstr "0")))) with
      | none => rw [hq] at h; exact absurd h (by simp)
      | some r =>
          rw [hq] at h
          simp only [Except.ok.injEq, Prod.mk.injEq] at h
          rw [← h.1, ← h.2]
          exact hq

/-- C1 witness: the amended rounding law applied to the concrete 100.125
table, yielding the banker's-rounded 100.12. -/
theorem claim_C1_witness :
    pyQuantize2 .halfEven (.finite false 100125 (-3)) = some (.finite false 10012 (-2)) :=
  claim_C1_round_half_even
    [(0, ROW_TYPE_TOTAL, [(pstr "total", pstr "100.125")])] (pstr "total")
    (.finite false 100125 (-3)) (.finite false 10012 (-2)) (by decide)

/-! ## Claim C7: the GSTIN invariant -/

/-- Helper: whenever `validate_gst` succeeds, the stored value is the
stripped upper-cased input and satisfies the GSTIN invariant. -/
theorem validate_gst_ok (v w : PyStr) (h : validate_gst v = .ok w) :
    w = pyUpper (pyStrip v) ∧
      (w = pstr "UNREGISTERED" ∨
        (w.length = 15 ∧ w.all (fun c => isDigitC c || isUpperC c) = true)) := by
  unfold validate_gst at h
  by_cases h1 : pyUpper (pyStrip v) = pstr "UNREGISTERED"
  · rw [if_pos h1] at h
    simp only [Except.ok.injEq] at h
    exact ⟨h.symm, Or.inl (h ▸ h1)⟩
  · rw [if_neg h1] at h
    by_cases h2 : ((pyUpper (pyStrip v)).length == 15 &&
        (pyUpper (pyStrip v)).all (fun c => isDigitC c || isUpperC c)) = true
    · rw [if_neg (by simp [h2])] at h
      simp only [Except.ok.injEq] at h
      subst h
      simp only [Bool.and_eq_true, beq_iff_eq] at h2
      exact ⟨rfl, Or.inr h2⟩
    · have h2' : ((pyUpper (pyStrip v)).length == 15 &&
          (pyUpper (pyStrip v)).all (fun c => isDigitC c || isUpperC c)) = false := by
        cases hb : ((pyUpper (pyStrip v)).length == 15 &&
            (pyUpper (pyStrip v)).all (fun c => isDigitC c || isUpperC c)) with
        | false => rfl
        | true => exact absurd hb h2
      rw [if_pos (by rw [h2']; rfl)] at h
      exact absurd h (by simp)

/-- C7 counterexample: the 15-character lower-case input
"29abcde1234f1z5" is neither the literal "UNREGISTERED" nor 15 upper-case
alphanumerics, yet construction accepts it (after strip/upper-casing)
instead of raising GSTValidationError. -/
theorem claim_C7_counterexample :
    validate_gst (pstr "29abcde1234f1z5") = .ok (pstr "29ABCDE1234F1Z5") ∧
    pstr "29abcde1234f1z5" ≠ pstr "UNREGISTERED" ∧
    ¬((pstr "29abcde1234f1z5").length = 15 ∧
      (pstr "29abcde1234f1z5").all (fun c => isDigitC c || isUpperC c) = true) :=
  ⟨by decide, by decide, by decide⟩

/-- C7 (amended): the vendor tax-ID validator first strips and upper-cases
its input; the normalized value "UNREGISTERED" and 15-character upper-case
alphanumerics (such as "29ABCDE1234F1Z5") are accepted and stored, any
other normalized value (such as the 14-character "29ABCDE1234F1Z") raises
GSTValidationError, and every successfully constructed record's vendor
tax-ID is "UNREGISTERED" or exactly 15 upper-case alphanumerics. -/
theorem claim_C7_gstin_invariant :
    validate_gst (pstr "UNREGISTERED") = .ok (pstr "UNREGISTERED") ∧
    validate_gst (pstr "29ABCDE1234F1Z5") = .ok (pstr "29ABCDE1234F1Z5") ∧
    validate_gst (pstr "29ABCDE1234F1Z") = .error .invalidFormat ∧
    (∀ v : PyStr, pyUpper (pyStrip v) ≠ pstr "UNREGISTERED" →
      ¬((pyUpper (pyStrip v)).length = 15 ∧
        (pyUpper (pyStrip v)).all (fun c => isDigitC c || isUpperC c) = true) →
      validate_gst v = .error .invalidFormat) ∧
    (∀ inv inv' : ExtractedInvoice, mkExtractedInvoice inv = .ok inv' →
      inv'.vendor_gst = pstr "UNREGISTERED" ∨
        (inv'.vendor_gst.length = 15 ∧
          inv'.vendor_gst.all (fun c => isDigitC c || isUpperC c) = true)) := by
  refine ⟨by decide, by decide, by decide, ?_, ?_⟩
  · intro v h1 h2
    have h2' : ((pyUpper (pyStrip v)).length == 15 &&
        (pyUpper (pyStrip v)).all (fun c => isDigitC c || isUpperC c)) = false := by
      cases hb : ((pyUpper (pyStrip v)).length == 15 &&
          (pyUpper (pyStrip v)).all (fun c => isDigitC c || isUpperC c)) with
      | false => rfl
      | true =>
          exfalso
          simp only [Bool.and_eq_true, beq_iff_eq] at hb
          exact h2 hb
    unfold validate_gst
    rw [if_neg h1, if_pos (by rw [h2']; rfl)]
  · intro inv inv' h
    unfold mkExtractedInvoice at h
    cases hg : validate_gst inv.vendor_gst with
    | error e => rw [hg] at h; exact absurd h (by simp)
    | ok w =>
        rw [hg] at h
        simp only [Except.ok.injEq] at h
        have := (validate_gst_ok _ _ hg).2
        rw [← h]
        exact this

/-- C7 witness: the rejection rule applied to the value "ABC", and the
stored-value invariant applied to a record constructed from the lower-case
GSTIN "29abcde1234f1z5". -/
theorem claim_C7_witness :
    validate_gst (pstr "ABC") = .error .invalidFormat ∧
    (pstr "29ABCDE1234F1Z5" = pstr "UNREGISTERED" ∨
      ((pstr "29ABCDE1234F1Z5").length = 15 ∧
        (pstr "29ABCDE1234F1Z5").all (fun c => isDigitC c || isUpperC c) = true)) :=
  ⟨claim_C7_gstin_invariant.2.2.2.1 (pstr "ABC") (by decide) (by decide),
   claim_C7_gstin_invariant.2.2.2.2
     { invoice_number := pstr "I", invoice_date := pstr "D", vendor_name := pstr "V",
       vendor_gst := pstr "29abcde1234f1z5", customer_name := pstr "C",
       state := pstr "S", line_items := [],
       grand_total_raw := .finite false 0 (-2),
       grand_total_rounded := .finite false 0 (-2) }
     { invoice_number := pstr "I", invoice_date := pstr "D", vendor_name := pstr "V",
       vendor_gst := pstr "29ABCDE1234F1Z5", customer_name := pstr "C",
       state := pstr "S", line_items := [],
       grand_total_raw := .finite false 0 (-2),
       grand_total_rounded := .finite false 0 (-2) }
     (by decide)⟩

/-! ## Value semantics of the exact decimal operations -/

def PyDecimal.isFinite : PyDecimal → Bool
  | .finite _ _ _ => true
  | _ => false

theorem mulPow10_spec (i : Int) (k : Nat) : mulPow10 i k = i * 10 ^ k := by
  induction k generalizing i with
  | zero => simp [mulPow10]
  | succ k ih => rw [mulPow10, ih (i * 10)]; ring

/-- Value of a finite decimal through its signed coefficient. -/
theorem val_finite (n : Bool) (c : Nat) (e : Int) :
    (PyDecimal.finite n c e).val = (decSigned n c : ℚ) * (10 : ℚ) ^ e := by
  cases n <;> simp [PyDecimal.val, decSigned] <;> push_cast <;> ring

/-- An aligned coefficient reproduces the decimal's value at the common
exponent. -/
theorem aligned_val (n : Bool) (c : Nat) (e m : Int) (hm : m ≤ e) :
    ((mulPow10 (decSigned n c) (e - m).toNat : Int) : ℚ) * (10 : ℚ) ^ m =
      (PyDecimal.finite n c e).val := by
  rw [mulPow10_spec, val_finite]
  push_cast
  rw [mul_assoc, ← zpow_natCast (10 : ℚ) (e - m).toNat,
    ← zpow_add₀ (by norm_num : (10 : ℚ) ≠ 0)]
  congr 2
  omega

/-- Sign/absolute-value decomposition used by `decAdd`. -/
theorem signed_natAbs_val (s m : Int) :
    (PyDecimal.finite (decide (s < 0)) s.natAbs m).val = (s : ℚ) * (10 : ℚ) ^ m := by
  rw [val_finite, decSigned]
  by_cases hs : s < 0
  · rw [if_pos (by simpa using hs)]
    push_cast [Int.cast_natAbs]
    rw [abs_of_neg (show (s : ℚ) < 0 by exact_mod_cast hs)]
    ring
  · rw [if_neg (by simpa using hs)]
    push_cast [Int.cast_natAbs]
    rw [abs_of_nonneg (show (0 : ℚ) ≤ (s : ℚ) by exact_mod_cast not_lt.mp hs)]

/-- `decAdd` is exact on finite operands. -/
theorem val_decAdd (a b : PyDecimal) (ha : a.isFinite = true) (hb : b.isFinite = true) :
    (decAdd a b).val = a.val + b.val ∧ (decAdd a b).isFinite = true := by
  cases a with
  | finite na ca ea =>
    cases b with
    | finite nb cb eb =>
        have h1 := aligned_val na ca ea (min ea eb) (min_le_left ea eb)
        have h2 := aligned_val nb cb eb (min ea eb) (min_le_right ea eb)
        constructor
        · simp only [decAdd, alignedPair]
          rw [signed_natAbs_val]
          push_cast
          rw [add_mul, h1, h2]
        · rfl
    | infinity nb => simp [PyDecimal.isFinite] at hb
    | nan nb sb pb => simp [PyDecimal.isFinite] at hb
  | infinity na => simp [PyDecimal.isFinite] at ha
  | nan na sa pa => simp [PyDecimal.isFinite] at ha

theorem val_decNeg (a : PyDecimal) (ha : a.isFinite = true) :
    (decNeg a).val = -a.val ∧ (decNeg a).isFinite = true := by
  cases a with
  | finite n c e =>
      refine ⟨?_, rfl⟩
      cases n <;> simp [decNeg, PyDecimal.val] <;> ring
  | infinity n => simp [PyDecimal.isFinite] at ha
  | nan n s p => simp [PyDecimal.isFinite] at ha

theorem val_decSub (a b : PyDecimal) (ha : a.isFinite = true) (hb : b.isFinite = true) :
    (decSub a b).val = a.val - b.val ∧ (decSub a b).isFinite = true := by
  have hn := val_decNeg b hb
  have hadd := val_decAdd a (decNeg b) ha hn.2
  rw [decSub, hadd.1, hn.1]
  exact ⟨by ring, hadd.2⟩

theorem val_pyAbs (a : PyDecimal) (ha : a.isFinite = true) :
    (pyAbs a).val = |a.val| ∧ (pyAbs a).isFinite = true := by
  cases a with
  | finite n c e =>
      refine ⟨?_, rfl⟩
      show (PyDecimal.finite false c e).val = |(PyDecimal.finite n c e).val|
      rw [val_finite, val_finite, abs_mul,
        abs_of_nonneg (show (0 : ℚ) ≤ (10 : ℚ) ^ e by positivity)]
      congr 1
      cases n
      · simp only [decSigned, Bool.false_eq_true, if_false]
        rw [abs_of_nonneg (by push_cast; positivity)]
      · simp only [decSigned, if_true]
        push_cast
        rw [abs_neg, abs_of_nonneg (by positivity)]
  | infinity n => simp [PyDecimal.isFinite] at ha
  | nan n s p => simp [PyDecimal.isFinite] at ha

/-- `decValEq` is numeric equality on finite operands. -/
theorem decValEq_iff (a b : PyDecimal) (ha : a.isFinite = true) (hb : b.isFinite = true) :
    (decValEq a b = true) ↔ a.val = b.val := by
  cases a with
  | finite na ca ea =>
    cases b with
    | finite nb cb eb =>
        have h1 := aligned_val na ca ea (min ea eb) (min_le_left ea eb)
        have h2 := aligned_val nb cb eb (min ea eb) (min_le_right ea eb)
        have hpos : (0 : ℚ) < (10 : ℚ) ^ (min ea eb) := by positivity
        simp only [decValEq, alignedPair, decide_eq_true_eq]
        rw [← h1, ← h2]
        constructor
        · intro h; rw [h]
        · intro h
          exact_mod_cast mul_right_cancel₀ (ne_of_gt hpos) h
    | infinity nb => simp [PyDecimal.isFinite] at hb
    | nan nb sb pb => simp [PyDecimal.isFinite] at hb
  | infinity na => simp [PyDecimal.isFinite] at ha
  | nan na sa pa => simp [PyDecimal.isFinite] at ha

/-- `decGt` is numeric strict order on finite operands. -/
theorem decGt_iff (a b : PyDecimal) (ha : a.isFinite = true) (hb : b.isFinite = true) :
    (decGt a b = true) ↔ b.val < a.val := by
  cases a with
  | finite na ca ea =>
    cases b with
    | finite nb cb eb =>
        have h1 := aligned_val nb cb eb (min eb ea) (min_le_left eb ea)
        have h2 := aligned_val na ca ea (min eb ea) (min_le_right eb ea)
        have hpos : (0 : ℚ) < (10 : ℚ) ^ (min eb ea) := by positivity
        simp only [decGt, decLt, alignedPair, decide_eq_true_eq]
        rw [← h1, ← h2, mul_lt_mul_right hpos]
        exact_mod_cast Iff.rfl
    | infinity nb => simp [PyDecimal.isFinite] at hb
    | nan nb sb pb => simp [PyDecimal.isFinite] at hb
  | infinity na => simp [PyDecimal.isFinite] at ha
  | nan na sa pa => simp [PyDecimal.isFinite] at ha

/-- Finiteness propagates backwards through `pyAbs` and `decSub`. -/
theorem finite_of_pyAbs_decSub (a b : PyDecimal)
    (h : (pyAbs (decSub a b)).isFinite = true) :
    a.isFinite = true ∧ b.isFinite = true := by
  cases a <;> cases b <;>
    simp_all [pyAbs, decSub, decAdd, decNeg, PyDecimal.isFinite]

/-- Both sides of a true `decValEq` are finite. -/
theorem finite_of_decValEq (a b : PyDecimal) (h : decValEq a b = true) :
    a.isFinite = true ∧ b.isFinite = true := by
  cases a <;> cases b <;> simp_all [decValEq, PyDecimal.isFinite]

theorem finite_of_decSub (a b : PyDecimal) (h : (decSub a b).isFinite = true) :
    a.isFinite = true ∧ b.isFinite = true := by
  cases a <;> cases b <;> simp_all [decSub, decAdd, decNeg, PyDecimal.isFinite]

/-! ## Claim C3: the validator tolerance boundary -/

/-- C3: in CGST/SGST mode, a line item whose price-identity deviation
`|net − (gross − discount)|` is numerically exactly 0.02 passes the price
check (the outcome is decided by the tax-identity check alone), while a
deviation of exactly 0.03 raises ArithmeticMismatchError citing the
net value, gross value and discount together with the numeric
difference 0.03; the tolerance is the constant `TOLERANCE = 0.02`. -/
theorem claim_C3_tolerance_boundary (it1 it2 : LineItem) (i1 i2 : Nat)
    (h1 : decValEq (pyAbs (decSub it1.net_value (decSub it1.gross_value it1.discount)))
      TOLERANCE = true)
    (h2 : decValEq (pyAbs (decSub it2.net_value (decSub it2.gross_value it2.discount)))
      (.finite false 3 (-2)) = true) :
    validate_line_item_arithmetic it1 i1 (pstr "cgst_sgst") =
      (if decGt (pyAbs (decSub (decAdd (decAdd it1.net_value it1.cgst_amount)
          it1.sgst_amount) it1.total)) TOLERANCE then
        Except.error (.totalTaxMismatch i1 it1.description it1.total it1.net_value
          (decSub (decAdd (decAdd it1.net_value it1.cgst_amount) it1.sgst_amount)
            it1.net_value)
          (pyAbs (decSub (decAdd (decAdd it1.net_value it1.cgst_amount) it1.sgst_amount)
            it1.total)))
      else Except.ok ()) ∧
    (∃ d, validate_line_item_arithmetic it2 i2 (pstr "cgst_sgst") =
        .error (.netMismatch i2 it2.description it2.net_value it2.gross_value
          it2.discount d) ∧
      decValEq d (.finite false 3 (-2)) = true) := by
  have key : ∀ (it : LineItem) (T : PyDecimal), T.isFinite = true →
      decValEq (pyAbs (decSub it.net_value (decSub it.gross_value it.discount))) T = true →
      (pyAbs (decSub (decSub it.gross_value it.discount) it.net_value)).isFinite = true ∧
      (pyAbs (decSub (decSub it.gross_value it.discount) it.net_value)).val = T.val := by
    intro it T hT h
    have hXf := (finite_of_decValEq _ _ h).1
    have hsub := finite_of_pyAbs_decSub _ _ hXf
    have hn := hsub.1
    have hgd := hsub.2
    have hYsub := val_decSub (decSub it.gross_value it.discount) it.net_value hgd hn
    have hY := val_pyAbs _ hYsub.2
    refine ⟨hY.2, ?_⟩
    have hXsub := val_decSub it.net_value (decSub it.gross_value it.discount) hn hgd
    have hX := val_pyAbs _ hXsub.2
    have hXT := (decValEq_iff _ _ hXf hT).mp h
    rw [hX.1, hXsub.1] at hXT
    rw [hY.1, hYsub.1, abs_sub_comm]
    exact hXT
  obtain ⟨hY1f, hY1v⟩ := key it1 TOLERANCE rfl h1
  obtain ⟨hY2f, hY2v⟩ := key it2 (.finite false 3 (-2)) rfl h2
  have hvals : TOLERANCE.val < (PyDecimal.finite false 3 (-2)).val := by
    have hp : (0 : ℚ) < (10 : ℚ) ^ (-2 : Int) := by positivity
    show (PyDecimal.finite false 2 (-2)).val < (PyDecimal.finite false 3 (-2)).val
    simp only [PyDecimal.val, Bool.false_eq_true, if_false, one_mul]
    exact (mul_lt_mul_right hp).mpr (by norm_num)
  have hfalse : decGt
      (pyAbs (decSub (decSub it1.gross_value it1.discount) it1.net_value))
      TOLERANCE = false := by
    cases hb : decGt
        (pyAbs (decSub (decSub it1.gross_value it1.discount) it1.net_value))
        TOLERANCE with
    | false => rfl
    | true =>
        exfalso
        have := (decGt_iff _ TOLERANCE hY1f rfl).mp hb
        rw [hY1v] at this
        exact lt_irrefl _ this
  have htrue : decGt
      (pyAbs (decSub (decSub it2.gross_value it2.discount) it2.net_value))
      TOLERANCE = true := by
    refine (decGt_iff _ TOLERANCE hY2f rfl).mpr ?_
    rw [hY2v]
    exact hvals
  refine ⟨?_, ?_⟩
  · unfold validate_line_item_arithmetic
    rw [if_neg (by decide : ¬(pstr "cgst_sgst" = pstr "igst"))]
    simp only [hfalse, Bool.false_eq_true, if_false]
  · refine ⟨pyAbs (decSub (decSub it2.gross_value it2.discount) it2.net_value), ?_, ?_⟩
    · unfold validate_line_item_arithmetic
      rw [if_neg (by decide : ¬(pstr "cgst_sgst" = pstr "igst"))]
      simp only [htrue, if_true]
    · exact (decValEq_iff _ (.finite false 3 (-2)) hY2f rfl).mpr hY2v

/-- C3 witness: concrete items with deviations of exactly 0.02 and 0.03
(gross 100.00, discount 0.00, net 99.98 resp. 99.97): the first passes, the
second fails citing the difference 0.03. -/
theorem claim_C3_witness :
    validate_line_item_arithmetic
      { description := pstr "a", gross_value := .finite false 10000 (-2),
        discount := .finite false 0 (-2), net_value := .finite false 9998 (-2),
        total := .finite false 9998 (-2) } 0 (pstr "cgst_sgst") = .ok () ∧
    validate_line_item_arithmetic
      { description := pstr "b", gross_value := .finite false 10000 (-2),
        discount := .finite false 0 (-2), net_value := .finite false 9997 (-2),
        total := .finite false 9997 (-2) } 1 (pstr "cgst_sgst") =
      .error (.netMismatch 1 (pstr "b") (.finite false 9997 (-2))
        (.finite false 10000 (-2)) (.finite false 0 (-2)) (.finite false 3 (-2))) :=
  ⟨(claim_C3_tolerance_boundary
      { description := pstr "a", gross_value := .finite false 10000 (-2),
        discount := .finite false 0 (-2), net_value := .finite false 9998 (-2),
        total := .finite false 9998 (-2) }
      { description := pstr "b", gross_value := .finite false 10000 (-2),
        discount := .finite false 0 (-2), net_value := .finite false 9997 (-2),
        total := .finite false 9997 (-2) } 0 1 (by decide) (by decide)).1.trans
    (by decide),
   by decide⟩

/-! ## Structure of one Flipkart scan step (shared by C2, C9, C10) -/

/-- Each scan step either leaves the emitted items unchanged (changing the
IGST rate only on an `IGST: n%` annotation line) or emits exactly one item,
whose description is non-empty and whose rate field renders the remembered
rate, resetting the remembered rate to `Decimal("0.00")`. -/
theorem flipStep_structure (st : FlipState) (line : PyStr) :
    ((flipStep st line).items = st.items ∧
      ((flipStep st line).igstRate = st.igstRate ∨
        igstSearch (pyStrip line) ≠ none)) ∨
    (∃ item : FlipItem,
      (flipStep st line).items = st.items ++ [item] ∧
      item.description ≠ [] ∧
      item.igst_rate = toSciString st.igstRate ∧
      (flipStep st line).igstRate = .finite false 0 (-2)) := by
  simp only [flipStep]
  repeat' split
  all_goals first
    | exact Or.inl ⟨rfl, Or.inl rfl⟩
    | (rename_i hig; exact Or.inl ⟨rfl, Or.inr (by simp [hig])⟩)
    | (refine Or.inr ⟨_, rfl, ?_, rfl, rfl⟩; first | simp_all | decide)
    | simp_all

/-- Non-empty descriptions are preserved by the scan loop. -/
theorem foldl_flipStep_desc (lines : List PyStr) (st : FlipState)
    (hst : ∀ it ∈ st.items, it.description ≠ []) :
    ∀ it ∈ (lines.foldl flipStep st).items, it.description ≠ [] := by
  induction lines generalizing st with
  | nil => exact hst
  | cons l rest ih =>
      refine ih (flipStep st l) ?_
      intro it hit
      rcases flipStep_structure st l with ⟨heq, _⟩ | ⟨item, heq, hdesc, _, _⟩
      · rw [heq] at hit; exact hst it hit
      · rw [heq] at hit
        rcases List.mem_append.mp hit with h | h
        · exact hst it h
        · rw [List.mem_singleton.mp h]; exact hdesc

/-! ## Claim C9: every emitted line item has a non-empty description -/

/-- C9: a numeric-pattern line whose accumulated description and same-line
leading text are both empty is skipped rather than emitted, so every line
item the unstructured parser emits carries a non-empty description. -/
theorem claim_C9_nonempty_description (text : PyStr) (items : List FlipItem)
    (h : extract_flipkart_line_items text = .ok items) :
    ∀ it ∈ items, it.description ≠ [] := by
  unfold extract_flipkart_line_items at h
  have h' : (if (match findTableStart (splitLines text) with
      | none => ([] : List FlipItem)
      | some rest => (List.foldl flipStep initFlipState rest).items) = [] then
      (Except.error TableError.tableExtraction : Except TableError (List FlipItem))
      else .ok (match findTableStart (splitLines text) with
      | none => []
      | some rest => (List.foldl flipStep initFlipState rest).items)) = .ok items := h
  clear h
  rename' h' => h
  split at h
  · exact absurd h (by simp)
  · rename_i hne
    simp only [Except.ok.injEq] at h
    subst h
    cases hft : findTableStart (splitLines text) with
    | none => simp [hft]
    | some rest =>
        simp only [hft]
        exact foldl_flipStep_desc rest initFlipState
          (by intro it hit; simp [initFlipState] at hit)

/-- C9 witness: the single item extracted from a concrete invoice text has
the non-empty description "Gadget". -/
theorem claim_C9_witness : pstr "Gadget" ≠ ([] : PyStr) :=
  claim_C9_nonempty_description (pstr "Product Qty Total\nGadget\n1 2 3 4 5 6")
    [{ description := pstr "Gadget", gross_value := pstr "2", discount := pstr "3",
       net_value := pstr "4", igst_rate := pstr "0.00", igst_amount := pstr "5",
       cess_amount := pstr "0", total := pstr "6" }]
    (by decide)
    { description := pstr "Gadget", gross_value := pstr "2", discount := pstr "3",
      net_value := pstr "4", igst_rate := pstr "0.00", igst_amount := pstr "5",
      cess_amount := pstr "0", total := pstr "6" }
    (by decide)

/-! ## Claim C10: the remembered IGST rate is reset after every emission -/

/-- C10: whenever a scan step emits an item the remembered IGST rate is
reset to `Decimal("0.00")`, so an `IGST: n%` annotation supplies the rate of
at most the next emitted item; and over any run of lines containing no rate
annotation, starting from a zero remembered rate, every newly emitted item
carries the rate string "0.00". -/
theorem claim_C10_igst_rate_reset :
    (∀ (st : FlipState) (line : PyStr), (flipStep st line).items ≠ st.items →
      (flipStep st line).igstRate = .finite false 0 (-2)) ∧
    (∀ (lines : List PyStr) (st : FlipState),
      st.igstRate = .finite false 0 (-2) →
      (∀ l ∈ lines, igstSearch (pyStrip l) = none) →
      ∀ it ∈ (lines.foldl flipStep st).items,
        it ∈ st.items ∨ it.igst_rate = pstr "0.00") := by
  constructor
  · intro st line hne
    rcases flipStep_structure st line with ⟨heq, _⟩ | ⟨item, _, _, _, hr⟩
    · exact absurd heq hne
    · exact hr
  · intro lines
    induction lines with
    | nil => intro st h0 _ it hit; exact Or.inl hit
    | cons l rest ih =>
        intro st h0 hann it hit
        have hig : igstSearch (pyStrip l) = none := hann l (by simp)
        have hstep := flipStep_structure st l
        have hrate : (flipStep st l).igstRate = .finite false 0 (-2) := by
          rcases hstep with ⟨_, hr | hr⟩ | ⟨_, _, _, _, hr⟩
          · rw [hr, h0]
          · exact absurd hig hr
          · exact hr
        have hrec := ih (flipStep st l) hrate
          (fun x hx => hann x (List.mem_cons_of_mem _ hx)) it (by exact hit)
        rcases hrec with hin | hzero
        · rcases hstep with ⟨heq, _⟩ | ⟨item, heq, _, hirate, _⟩
          · exact Or.inl (heq ▸ hin)
          · rw [heq] at hin
            rcases List.mem_append.mp hin with hmem | hmem
            · exact Or.inl hmem
            · right
              rw [List.mem_singleton.mp hmem, hirate, h0]
              decide
        · exact Or.inr hzero

/-- C10 witness: an emitting step from a remembered rate of 5.5 resets the
rate to 0.00, and a run with no annotation lines emits its item with the
rate string "0.00". -/
theorem claim_C10_witness :
    (flipStep
        { items := [], descriptionParts := [pstr "Widget"],
          igstRate := .finite false 55 (-1), hsnCode := [] }
        (pstr "1 2 3 4 5 6")).items ≠
      ({ items := [], descriptionParts := [pstr "Widget"],
         igstRate := .finite false 55 (-1), hsnCode := [] } : FlipState).items ∧
    (flipStep
        { items := [], descriptionParts := [pstr "Widget"],
          igstRate := .finite false 55 (-1), hsnCode := [] }
        (pstr "1 2 3 4 5 6")).igstRate =
      .finite false 0 (-2) ∧
    (({ description := pstr "Gadget", gross_value := pstr "2", discount := pstr "3",
        net_value := pstr "4", igst_rate := pstr "0.00", igst_amount := pstr "5",
        cess_amount := pstr "0", total := pstr "6" } : FlipItem) ∈
        initFlipState.items ∨
      ({ description := pstr "Gadget", gross_value := pstr "2", discount := pstr "3",
         net_value := pstr "4", igst_rate := pstr "0.00", igst_amount := pstr "5",
         cess_amount := pstr "0", total := pstr "6" } : FlipItem).igst_rate = pstr "0.00") :=
  ⟨by decide,
   claim_C10_igst_rate_reset.1
     { items := [], descriptionParts := [pstr "Widget"],
       igstRate := .finite false 55 (-1), hsnCode := [] } (pstr "1 2 3 4 5 6") (by decide),
   claim_C10_igst_rate_reset.2 [pstr "Gadget", pstr "1 2 3 4 5 6"] initFlipState rfl
     (by decide)
     { description := pstr "Gadget", gross_value := pstr "2", discount := pstr "3",
       net_value := pstr "4", igst_rate := pstr "0.00", igst_amount := pstr "5",
       cess_amount := pstr "0", total := pstr "6" }
     (by decide)⟩

/-! ## Claim C2: suppression of summary captions on numeric lines -/

/-- C2 counterexample: the discard check looks only at the same-line leading
text, before any appending: with accumulated description "Widget", the line
"Total 1 100.00 0.00 95.24 4.76 100.00" is discarded (its leading text
lower-cases to the caption "total"), so no item with the combined
description "Widget Total" is ever emitted — the claim's append-then-compare
account predicts such an item, since "Widget Total" equals no caption under
any casing. -/
theorem claim_C2_counterexample :
    extract_flipkart_line_items
      (pstr "Product Qty Total\nGadget\n1 2 3 4 5 6\nWidget\nTotal 1 100.00 0.00 95.24 4.76 100.00") =
      .ok [{ description := pstr "Gadget", gross_value := pstr "2", discount := pstr "3",
             net_value := pstr "4", igst_rate := pstr "0.00", igst_amount := pstr "5",
             cess_amount := pstr "0", total := pstr "6" }] ∧
    pstr "Widget Total" ∉ List.map FlipItem.description
      [({ description := pstr "Gadget", gross_value := pstr "2", discount := pstr "3",
          net_value := pstr "4", igst_rate := pstr "0.00", igst_amount := pstr "5",
          cess_amount := pstr "0", total := pstr "6" } : FlipItem)] :=
  ⟨by decide, by decide⟩

/-- C2 (amended): on a numeric-pattern match the parser compares only the
same-line leading text, lower-cased (a case-insensitive comparison against
the captions "total", "total price", "grand total"), before it is appended
to the accumulated description; on a hit no item is emitted for that line
(whatever earlier branch also fires, the item list is unchanged) and, when
the caption branch itself is reached, the accumulator resets. -/
theorem claim_C2_caption_suppression (st : FlipState) (line : PyStr)
    (start : Nat) (g : NumGroups)
    (hmatch : numberSearch (pyStrip line) = some (start, g))
    (hcap : pyLower (pyStrip ((pyStrip line).take start)) ∈ summaryCaptions) :
    (flipStep st line).items = st.items ∧
    (isSubHeaderLine (pyStrip line) = false →
      igstSearch (pyStrip line) = none →
      hsnSearch (pyStrip line) = none →
      isSkipLine (pyStrip line) = false →
      flipStep st line = { st with descriptionParts := [] }) := by
  constructor
  · simp only [flipStep]
    repeat' split
    all_goals first | rfl | simp_all
  · intro hsub hig hhsn hskip
    simp only [flipStep, hsub, hig, hhsn, hskip, hmatch, Bool.false_eq_true, if_false]
    rw [if_pos hcap]

/-- C2 witness: the line "Total 1 2 3 4 5 6" after an accumulated "Widget"
emits nothing and resets the accumulator. -/
theorem claim_C2_witness :
    (flipStep
        { items := [], descriptionParts := [pstr "Widget"],
          igstRate := .finite false 0 (-2), hsnCode := [] }
        (pstr "Total 1 2 3 4 5 6")).items =
      ({ items := [], descriptionParts := [pstr "Widget"],
         igstRate := .finite false 0 (-2), hsnCode := [] } : FlipState).items ∧
    flipStep
        { items := [], descriptionParts := [pstr "Widget"],
          igstRate := .finite false 0 (-2), hsnCode := [] }
        (pstr "Total 1 2 3 4 5 6") =
      { items := [], descriptionParts := [],
        igstRate := .finite false 0 (-2), hsnCode := [] } := by
  have H := claim_C2_caption_suppression
    { items := [], descriptionParts := [pstr "Widget"],
      igstRate := .finite false 0 (-2), hsnCode := [] }
    (pstr "Total 1 2 3 4 5 6") 6
    { qty := pstr "1", gross := pstr "2", discount := pstr "3", taxable := pstr "4",
      igstAmt := pstr "5", cess := none, total := pstr "6" }
    (by decide) (by decide)
  exact ⟨H.1, H.2 (by decide) (by decide) (by decide) (by decide)⟩

/-! ## Claim C8 groundwork: digit strings and their recomposition -/

theorem charVal_digitChar (d : Nat) (h : d < 10) : charVal (digitChar d) = d := by
  interval_cases d <;> rfl

theorem isDigitC_digitChar (d : Nat) (h : d < 10) : isDigitC (digitChar d) = true := by
  interval_cases d <;> rfl

theorem digitsOf_all_digit (n : Nat) : ∀ ch ∈ digitsOf n, isDigitC ch = true := by
  by_cases hn : n = 0
  · subst hn
    intro ch hch
    rw [show digitsOf 0 = ['0'] from rfl, List.mem_singleton] at hch
    subst hch
    rfl
  · rw [digitsOf_eq n hn]
    intro ch hch
    simp only [List.mem_map, List.mem_reverse] at hch
    obtain ⟨d, hd, rfl⟩ := hch
    exact isDigitC_digitChar d (Nat.digits_lt_base (by norm_num) hd)

theorem digitsOf_ne_nil (n : Nat) : digitsOf n ≠ [] := by
  by_cases hn : n = 0
  · subst hn; simp [digitsOf]
  · rw [digitsOf_eq n hn]
    simp [Nat.digits_ne_nil_iff_ne_zero.mpr hn]

theorem natFromDigitChars_aux (t : PyStr) (a : Nat) :
    t.foldl (fun a c => 10 * a + charVal c) a = a * 10 ^ t.length + natFromDigitChars t := by
  induction t generalizing a with
  | nil => simp [natFromDigitChars]
  | cons c t ih =>
      simp only [natFromDigitChars, List.foldl_cons, List.length_cons]
      rw [ih (10 * a + charVal c), ih (10 * 0 + charVal c)]
      ring

theorem natFromDigitChars_append (s t : PyStr) :
    natFromDigitChars (s ++ t) = natFromDigitChars s * 10 ^ t.length + natFromDigitChars t := by
  rw [natFromDigitChars, List.foldl_append]
  exact natFromDigitChars_aux t _

theorem natFromDigitChars_replicate_zero (k : Nat) (s : PyStr) :
    natFromDigitChars (List.replicate k '0' ++ s) = natFromDigitChars s := by
  induction k with
  | zero => rfl
  | succ k ih =>
      rw [List.replicate_succ, List.cons_append]
      show List.foldl _ (10 * 0 + charVal '0') _ = _
      exact ih

theorem natFromDigitChars_cons_zero (s : PyStr) :
    natFromDigitChars ('0' :: s) = natFromDigitChars s := by
  show List.foldl _ (10 * 0 + charVal '0') _ = _
  rfl

theorem foldl_digitChars_ofDigits (L : List Nat) (h : ∀ x ∈ L, x < 10) :
    natFromDigitChars ((L.reverse).map digitChar) = Nat.ofDigits 10 L := by
  induction L with
  | nil => rfl
  | cons d L ih =>
      rw [List.reverse_cons, List.map_append, natFromDigitChars_append]
      simp only [List.map_cons, List.map_nil, List.length_cons, List.length_nil]
      rw [ih (fun x hx => h x (List.mem_cons_of_mem _ hx)), Nat.ofDigits_cons]
      have hone : natFromDigitChars [digitChar d] = d := by
        show 10 * 0 + charVal (digitChar d) = d
        rw [charVal_digitChar d (h d (List.mem_cons_self d L))]
        omega
      rw [hone]
      ring

theorem natFromDigitChars_digitsOf (n : Nat) : natFromDigitChars (digitsOf n) = n := by
  by_cases hn : n = 0
  · subst hn; rfl
  · rw [digitsOf_eq n hn,
      foldl_digitChars_ofDigits _ (fun x hx => Nat.digits_lt_base (by norm_num) hx),
      Nat.ofDigits_digits]

/-! ## Claim C8 groundwork: takeWhile / dropWhile over digit blocks -/

theorem takeWhile_append_all (p : Char → Bool) (pre rest : PyStr)
    (hpre : ∀ c ∈ pre, p c = true) :
    (pre ++ rest).takeWhile p = pre ++ rest.takeWhile p := by
  induction pre with
  | nil => rfl
  | cons a t ih =>
      rw [List.cons_append, List.takeWhile_cons,
        if_pos (hpre a (List.mem_cons_self a t)), List.cons_append,
        ih (fun c hc => hpre c (List.mem_cons_of_mem a hc))]

theorem dropWhile_append_all (p : Char → Bool) (pre rest : PyStr)
    (hpre : ∀ c ∈ pre, p c = true) :
    (pre ++ rest).dropWhile p = rest.dropWhile p := by
  induction pre with
  | nil => rfl
  | cons a t ih =>
      rw [List.cons_append, List.dropWhile_cons,
        if_pos (hpre a (List.mem_cons_self a t)),
        ih (fun c hc => hpre c (List.mem_cons_of_mem a hc))]

theorem takeWhile_eq_nil_of_head (p : Char → Bool) (rest : PyStr)
    (h : ∀ c t, rest = c :: t → p c = false) : rest.takeWhile p = [] := by
  cases rest with
  | nil => rfl
  | cons c t => rw [List.takeWhile_cons, if_neg (by simp [h c t rfl])]

theorem dropWhile_eq_self_of_head (p : Char → Bool) (rest : PyStr)
    (h : ∀ c t, rest = c :: t → p c = false) : rest.dropWhile p = rest := by
  cases rest with
  | nil => rfl
  | cons c t => rw [List.dropWhile_cons, if_neg (by simp [h c t rfl])]

/-! ## Claim C8 groundwork: the character set of `str(Decimal)` output -/

/-- Characters that can occur in the scientific string of a finite decimal. -/
def sciChar (c : Char) : Bool :=
  isDigitC c || c = '-' || c = '.' || c = 'E' || c = '+'

theorem sciChar_of_digit (c : Char) (h : isDigitC c = true) : sciChar c = true := by
  simp [sciChar, h]

theorem sciChar_props (c : Char) (h : sciChar c = true) :
    isWsC c = false ∧ c ≠ '₹' ∧ c ≠ '$' ∧ c ≠ '€' ∧ c ≠ '£' ∧ c ≠ '¥' ∧
      c ≠ ',' ∧ c ≠ '%' ∧ c ≠ '_' ∧ c ≠ '(' := by
  have htN : (48 ≤ c.toNat ∧ c.toNat ≤ 57) ∨ c.toNat = 45 ∨ c.toNat = 46 ∨
      c.toNat = 69 ∨ c.toNat = 43 := by
    simp only [sciChar, isDigitC, Bool.or_eq_true, Bool.and_eq_true,
      decide_eq_true_eq] at h
    rcases h with ((((hd | h) | h) | h) | h)
    · exact Or.inl hd
    · subst h; right; left; rfl
    · subst h; right; right; left; rfl
    · subst h; right; right; right; left; rfl
    · subst h; right; right; right; right; rfl
  refine ⟨?_,
    fun he => absurd (he ▸ htN) (by decide),
    fun he => absurd (he ▸ htN) (by decide),
    fun he => absurd (he ▸ htN) (by decide),
    fun he => absurd (he ▸ htN) (by decide),
    fun he => absurd (he ▸ htN) (by decide),
    fun he => absurd (he ▸ htN) (by decide),
    fun he => absurd (he ▸ htN) (by decide),
    fun he => absurd (he ▸ htN) (by decide),
    fun he => absurd (he ▸ htN) (by decide)⟩
  simp only [isWsC, Bool.or_eq_false_iff, decide_eq_false_iff_not]
  omega

/-- All characters of a string are `sciChar`s. -/
def AllSci (l : PyStr) : Prop := ∀ ch ∈ l, sciChar ch = true

theorem allSci_append {a b : PyStr} (ha : AllSci a) (hb : AllSci b) : AllSci (a ++ b) :=
  fun ch hch => (List.mem_append.mp hch).elim (ha ch) (hb ch)

theorem allSci_ite {P : Prop} [Decidable P] {a b : PyStr}
    (ha : AllSci a) (hb : AllSci b) : AllSci (if P then a else b) := by
  split <;> assumption

theorem allSci_nil : AllSci [] := fun ch hch => absurd hch (List.not_mem_nil ch)

theorem allSci_cons {c : Char} {l : PyStr} (hc : sciChar c = true) (hl : AllSci l) :
    AllSci (c :: l) :=
  fun ch hch => (List.mem_cons.mp hch).elim (fun h => h ▸ hc) (hl ch)

theorem allSci_digitsOf (n : Nat) : AllSci (digitsOf n) :=
  fun ch hch => sciChar_of_digit ch (digitsOf_all_digit n ch hch)

theorem allSci_replicate_zero (k : Nat) : AllSci (List.replicate k '0') :=
  fun ch hch => by rw [List.eq_of_mem_replicate hch]; decide

theorem allSci_expPartStr (k : Int) : AllSci (expPartStr k) := by
  rw [expPartStr]
  exact allSci_cons (by decide)
    (allSci_ite (allSci_cons (by decide) (allSci_digitsOf _))
      (allSci_cons (by decide) (allSci_digitsOf _)))

/-- Every character of `str(Decimal)` for a finite value is a `sciChar`. -/
theorem toSciString_finite_sciChar (n : Bool) (c0 : Nat) (e : Int) :
    ∀ ch ∈ toSciString (.finite n c0 e), sciChar ch = true := by
  show AllSci (toSciString (.finite n c0 e))
  simp only [toSciString]
  refine allSci_append (allSci_append (allSci_append ?_ ?_) ?_) ?_
  · exact allSci_ite (allSci_cons (by decide) allSci_nil) allSci_nil
  · exact allSci_ite (allSci_cons (by decide) allSci_nil)
      (allSci_ite (allSci_append (allSci_digitsOf _) (allSci_replicate_zero _))
        (fun ch hch => sciChar_of_digit ch
          (digitsOf_all_digit _ ch (List.take_subset _ _ hch))))
  · exact allSci_ite allSci_nil
      (allSci_ite
        (allSci_cons (by decide)
          (allSci_append (allSci_replicate_zero _) (allSci_digitsOf _)))
        (allSci_cons (by decide)
          (fun ch hch => sciChar_of_digit ch
            (digitsOf_all_digit _ ch (List.drop_subset _ _ hch)))))
  · exact allSci_ite allSci_nil (allSci_expPartStr _)

/-! ## Claim C8 groundwork: the normalizer is the identity on such strings -/

theorem pyStrip_eq_self (s : PyStr) (h : ∀ c ∈ s, isWsC c = false) : pyStrip s = s := by
  have hd : ∀ (t : PyStr), (∀ c ∈ t, isWsC c = false) → t.dropWhile isWsC = t := by
    intro t ht
    cases t with
    | nil => rfl
    | cons c u =>
        rw [List.dropWhile_cons, if_neg (by simp [ht c (List.mem_cons_self c u)])]
  rw [pyStrip, hd s h, hd s.reverse (fun c hc => h c (List.mem_reverse.mp hc)),
    List.reverse_reverse]

theorem parenNeg_cons_ne (c : Char) (t : PyStr) (h : c ≠ '(') :
    parenNeg (c :: t) = c :: t := by
  unfold parenNeg
  split
  · rename_i rest heq
    rw [List.cons.injEq] at heq
    exact absurd heq.1 h
  · rfl


/-- On a string of `sciChar`s containing a digit, `parse_decimal` reduces to
the bare `Decimal` constructor. -/
theorem parse_decimal_eq_ofString (s : PyStr) (hs : ∀ ch ∈ s, sciChar ch = true)
    (hdig : ∃ ch ∈ s, isDigitC ch = true) :
    parse_decimal s = (decimalOfString s).getD (.finite false 0 (-2)) := by
  have h1 : pyStrip s = s :=
    pyStrip_eq_self s (fun c hc => (sciChar_props c (hs c hc)).1)
  have h2 : stripCurrency s = s := by
    rw [stripCurrency, List.filter_eq_self]
    intro c hc
    obtain ⟨_, p1, p2, p3, p4, p5, _⟩ := sciChar_props c (hs c hc)
    simp [p1, p2, p3, p4, p5]
  have h3 : parenNeg s = s := by
    cases s with
    | nil => rfl
    | cons c t =>
        exact parenNeg_cons_ne c t
          (sciChar_props c (hs c (List.mem_cons_self c t))).2.2.2.2.2.2.2.2.2
  have h4 : s.filter (fun c => c ≠ ',') = s := by
    rw [List.filter_eq_self]
    intro c hc
    simp [(sciChar_props c (hs c hc)).2.2.2.2.2.2.1]
  have h5 : s.filter (fun c => c ≠ '%') = s := by
    rw [List.filter_eq_self]
    intro c hc
    simp [(sciChar_props c (hs c hc)).2.2.2.2.2.2.2.1]
  have hblank : ¬(s ∈ blankStrings) := by
    intro hmem
    obtain ⟨ch, hch, hd⟩ := hdig
    have hnone : ∀ b ∈ blankStrings, ∀ ch ∈ b, isDigitC ch = false := by decide
    rw [hnone s hmem ch hch] at hd
    exact Bool.false_ne_true hd
  unfold parse_decimal
  rw [h1]
  show (if s ∈ blankStrings then PyDecimal.finite false 0 (-2)
      else match decimalOfString (pyStrip
          (((parenNeg (pyStrip (stripCurrency s))).filter
            (fun c => c ≠ ',')).filter (fun c => c ≠ '%'))) with
        | some d => d
        | none => .finite false 0 (-2)) = _
  rw [if_neg hblank, h2, h1, h3, h4, h5, h1]
  cases hres : decimalOfString s with
  | some d => rfl
  | none => rfl

/-! ## Claim C8 groundwork: explicit shapes of `str(Decimal)` -/

theorem toSci_shape_A (n : Bool) (c : Nat) (e : Int)
    (h1 : e + ((digitsOf c).length : Int) ≤ 0)
    (h2 : (-6 : Int) < e + ((digitsOf c).length : Int)) :
    toSciString (.finite n c e) =
      (if n then ['-'] else []) ++ '0' :: '.' ::
        (List.replicate (-(e + ((digitsOf c).length : Int))).toNat '0' ++ digitsOf c) := by
  have hlen : 0 < (digitsOf c).length := List.length_pos.mpr (digitsOf_ne_nil c)
  simp only [toSciString]
  have hcond : (decide (e ≤ 0) &&
      decide (e + ((digitsOf c).length : Int) > -6)) = true := by
    simp only [Bool.and_eq_true, decide_eq_true_eq]
    omega
  rw [if_pos hcond, if_pos h1,
    if_neg (by omega : ¬(e + ((digitsOf c).length : Int) ≥ ((digitsOf c).length : Int) ∧
      0 < e + ((digitsOf c).length : Int))),
    if_pos h1, if_pos rfl]
  simp

theorem toSci_shape_B1 (n : Bool) (c : Nat) :
    toSciString (.finite n c 0) = (if n then ['-'] else []) ++ digitsOf c := by
  have hlen : 0 < (digitsOf c).length := List.length_pos.mpr (digitsOf_ne_nil c)
  simp only [toSciString]
  have hcond : (decide ((0 : Int) ≤ 0) &&
      decide ((0 : Int) + ((digitsOf c).length : Int) > -6)) = true := by
    simp only [Bool.and_eq_true, decide_eq_true_eq]
    omega
  rw [if_pos hcond,
    if_neg (by omega : ¬((0 : Int) + ((digitsOf c).length : Int) ≤ 0)),
    if_pos (by omega : (0 : Int) + ((digitsOf c).length : Int) ≥ ((digitsOf c).length : Int)),
    if_pos (show (0 : Int) + ((digitsOf c).length : Int) ≥ ((digitsOf c).length : Int) ∧
        0 < (0 : Int) + ((digitsOf c).length : Int) from ⟨by omega, by omega⟩),
    if_pos (rfl : (0 : Int) + ((digitsOf c).length : Int) =
      (0 : Int) + ((digitsOf c).length : Int))]
  simp

theorem toSci_shape_B2 (n : Bool) (c : Nat) (e : Int) (h1 : e < 0)
    (h2 : 0 < e + ((digitsOf c).length : Int)) :
    toSciString (.finite n c e) =
      (if n then ['-'] else []) ++
        ((digitsOf c).take (e + ((digitsOf c).length : Int)).toNat ++
          '.' :: (digitsOf c).drop (e + ((digitsOf c).length : Int)).toNat) := by
  simp only [toSciString]
  have hcond : (decide (e ≤ 0) &&
      decide (e + ((digitsOf c).length : Int) > -6)) = true := by
    simp only [Bool.and_eq_true, decide_eq_true_eq]
    omega
  rw [if_pos hcond,
    if_neg (by omega : ¬(e + ((digitsOf c).length : Int) ≤ 0)),
    if_neg (by omega : ¬(e + ((digitsOf c).length : Int) ≥ ((digitsOf c).length : Int))),
    if_neg (by omega : ¬(e + ((digitsOf c).length : Int) ≥ ((digitsOf c).length : Int) ∧
      0 < e + ((digitsOf c).length : Int))),
    if_neg (by omega : ¬(e + ((digitsOf c).length : Int) ≤ 0)),
    if_pos rfl]
  simp

theorem toSci_shape_C1 (n : Bool) (c : Nat) (e : Int)
    (h : ¬(e ≤ 0 ∧ (-6 : Int) < e + ((digitsOf c).length : Int)))
    (hlen : (digitsOf c).length = 1) :
    toSciString (.finite n c e) =
      (if n then ['-'] else []) ++
        (digitsOf c ++ expPartStr (e + ((digitsOf c).length : Int) - 1)) := by
  simp only [toSciString]
  have hcond : (decide (e ≤ 0) &&
      decide (e + ((digitsOf c).length : Int) > -6)) = false := by
    simp only [Bool.and_eq_false_iff, decide_eq_false_iff_not]
    by_cases he : e ≤ 0
    · exact Or.inr (fun hgt => h ⟨he, by omega⟩)
    · exact Or.inl he
  rw [if_neg (show ¬((decide (e ≤ 0) &&
      decide (e + ((digitsOf c).length : Int) > -6)) = true) from by simp [hcond]),
    if_neg (by omega : ¬((1 : Int) ≤ 0)),
    if_pos (show (1 : Int) ≥ ((digitsOf c).length : Int) from by omega),
    if_pos (show (1 : Int) ≥ ((digitsOf c).length : Int) ∧ 0 < (1 : Int) from
      ⟨by omega, by omega⟩),
    if_neg (show ¬(e + ((digitsOf c).length : Int) = 1) from
      fun heq => h ⟨by omega, by omega⟩)]
  simp [hlen]

theorem toSci_shape_C2 (n : Bool) (c : Nat) (e : Int)
    (h : ¬(e ≤ 0 ∧ (-6 : Int) < e + ((digitsOf c).length : Int)))
    (hlen : 1 < (digitsOf c).length) :
    toSciString (.finite n c e) =
      (if n then ['-'] else []) ++
        ((digitsOf c).take 1 ++
          ('.' :: (digitsOf c).drop 1 ++
            expPartStr (e + ((digitsOf c).length : Int) - 1))) := by
  simp only [toSciString]
  have hcond : (decide (e ≤ 0) &&
      decide (e + ((digitsOf c).length : Int) > -6)) = false := by
    simp only [Bool.and_eq_false_iff, decide_eq_false_iff_not]
    by_cases he : e ≤ 0
    · exact Or.inr (fun hgt => h ⟨he, by omega⟩)
    · exact Or.inl he
  rw [if_neg (show ¬((decide (e ≤ 0) &&
      decide (e + ((digitsOf c).length : Int) > -6)) = true) from by simp [hcond]),
    if_neg (by omega : ¬((1 : Int) ≤ 0)),
    if_neg (by omega : ¬((1 : Int) ≥ ((digitsOf c).length : Int))),
    if_neg (show ¬((1 : Int) ≥ ((digitsOf c).length : Int) ∧ 0 < (1 : Int)) from
      fun hand => absurd hand.1 (by omega)),
    if_neg (by omega : ¬((1 : Int) ≤ 0)),
    if_neg (show ¬(e + ((digitsOf c).length : Int) = 1) from
      fun heq => h ⟨by omega, by omega⟩)]
  simp

/-! ## Claim C8 groundwork: parsing the printed string back -/

theorem takeWhile_all (p : Char → Bool) (l : PyStr) (h : ∀ c ∈ l, p c = true) :
    l.takeWhile p = l := by
  have := takeWhile_append_all p l [] h
  simpa using this

theorem dropWhile_all (p : Char → Bool) (l : PyStr) (h : ∀ c ∈ l, p c = true) :
    l.dropWhile p = [] := by
  have := dropWhile_append_all p l [] h
  simpa using this

theorem parseExpPart_expPartStr (q : Int) : parseExpPart (expPartStr q) = some q := by
  have hds : (digitsOf q.natAbs).takeWhile isDigitC = digitsOf q.natAbs :=
    takeWhile_all _ _ (digitsOf_all_digit _)
  have hdd : (digitsOf q.natAbs).dropWhile isDigitC = [] :=
    dropWhile_all _ _ (digitsOf_all_digit _)
  have hne : digitsOf q.natAbs ≠ [] := digitsOf_ne_nil _
  rw [expPartStr]
  by_cases hq : q < 0
  · rw [if_pos hq]
    have habs : |q| = -q := abs_of_neg hq
    simp only [parseExpPart]
    simp [hds, hdd, hne, natFromDigitChars_digitsOf, habs]
    all_goals omega
  · rw [if_neg hq]
    have habs : |q| = q := abs_of_nonneg (by omega)
    simp only [parseExpPart]
    simp [hds, hdd, hne, natFromDigitChars_digitsOf, habs]
    all_goals omega

theorem exists_digit_head (c : Nat) :
    ∃ d u, digitsOf c = d :: u ∧ isDigitC d = true := by
  cases hds : digitsOf c with
  | nil => exact absurd hds (digitsOf_ne_nil c)
  | cons d t =>
      exact ⟨d, t, rfl, digitsOf_all_digit c d (by rw [hds]; exact List.mem_cons_self d t)⟩

theorem exists_digit_head_append (c : Nat) (rest : PyStr) :
    ∃ d u, digitsOf c ++ rest = d :: u ∧ isDigitC d = true := by
  cases hds : digitsOf c with
  | nil => exact absurd hds (digitsOf_ne_nil c)
  | cons d t =>
      exact ⟨d, t ++ rest, by rw [List.cons_append],
        digitsOf_all_digit c d (by rw [hds]; exact List.mem_cons_self d t)⟩

theorem exists_digit_head_take (c : Nat) (K : Nat) (hK : 0 < K) (rest : PyStr) :
    ∃ d u, (digitsOf c).take K ++ rest = d :: u ∧ isDigitC d = true := by
  cases hds : digitsOf c with
  | nil => exact absurd hds (digitsOf_ne_nil c)
  | cons d t =>
      obtain ⟨m, rfl⟩ : ∃ m, K = m + 1 := ⟨K - 1, by omega⟩
      exact ⟨d, t.take m ++ rest, by rw [List.take_succ_cons, List.cons_append],
        digitsOf_all_digit c d (by rw [hds]; exact List.mem_cons_self d t)⟩

theorem parseNumericBody_A (ng : Bool) (k c : Nat) :
    parseNumericBody ng ('0' :: '.' :: (List.replicate k '0' ++ digitsOf c)) =
      some (.finite ng c (-((k : Int) + ((digitsOf c).length : Int)))) := by
  have hall : ∀ ch ∈ List.replicate k '0' ++ digitsOf c, isDigitC ch = true := by
    intro ch hch
    rcases List.mem_append.mp hch with h | h
    · rw [List.eq_of_mem_replicate h]; decide
    · exact digitsOf_all_digit c ch h
  have htk : ('0' :: '.' :: (List.replicate k '0' ++ digitsOf c)).takeWhile isDigitC
      = ['0'] := by
    rw [List.takeWhile_cons, if_pos (by decide),
      takeWhile_eq_nil_of_head isDigitC ('.' :: (List.replicate k '0' ++ digitsOf c))
        (fun cc tt hh => by cases hh; decide)]
  have hdr : ('0' :: '.' :: (List.replicate k '0' ++ digitsOf c)).dropWhile isDigitC
      = '.' :: (List.replicate k '0' ++ digitsOf c) := by
    rw [List.dropWhile_cons, if_pos (by decide),
      dropWhile_eq_self_of_head isDigitC ('.' :: (List.replicate k '0' ++ digitsOf c))
        (fun cc tt hh => by cases hh; decide)]
  simp only [parseNumericBody, htk, hdr]
  simp [takeWhile_all _ _ hall, dropWhile_all _ _ hall, parseExpPart,
    natFromDigitChars_cons_zero, natFromDigitChars_replicate_zero,
    natFromDigitChars_digitsOf, List.length_append]
  all_goals omega

theorem parseNumericBody_B1 (ng : Bool) (c : Nat) :
    parseNumericBody ng (digitsOf c) = some (.finite ng c 0) := by
  have hds : (digitsOf c).takeWhile isDigitC = digitsOf c :=
    takeWhile_all _ _ (digitsOf_all_digit c)
  have hdd : (digitsOf c).dropWhile isDigitC = [] :=
    dropWhile_all _ _ (digitsOf_all_digit c)
  simp only [parseNumericBody, hds, hdd]
  simp [parseExpPart, natFromDigitChars_digitsOf]

theorem parseNumericBody_B2 (ng : Bool) (c : Nat) (k : Nat) :
    parseNumericBody ng ((digitsOf c).take k ++ '.' :: (digitsOf c).drop k) =
      some (.finite ng c (-((((digitsOf c).drop k).length : Int)))) := by
  have htake : ∀ ch ∈ (digitsOf c).take k, isDigitC ch = true :=
    fun ch hch => digitsOf_all_digit c ch (List.take_subset _ _ hch)
  have hdropall : ∀ ch ∈ (digitsOf c).drop k, isDigitC ch = true :=
    fun ch hch => digitsOf_all_digit c ch (List.drop_subset _ _ hch)
  have htk : ((digitsOf c).take k ++ '.' :: (digitsOf c).drop k).takeWhile isDigitC
      = (digitsOf c).take k := by
    rw [takeWhile_append_all _ _ _ htake,
      takeWhile_eq_nil_of_head isDigitC ('.' :: (digitsOf c).drop k)
        (fun cc tt hh => by cases hh; decide),
      List.append_nil]
  have hdr : ((digitsOf c).take k ++ '.' :: (digitsOf c).drop k).dropWhile isDigitC
      = '.' :: (digitsOf c).drop k := by
    rw [dropWhile_append_all _ _ _ htake,
      dropWhile_eq_self_of_head isDigitC ('.' :: (digitsOf c).drop k)
        (fun cc tt hh => by cases hh; decide)]
  simp only [parseNumericBody, htk, hdr]
  simp [takeWhile_all _ _ hdropall, dropWhile_all _ _ hdropall, parseExpPart,
    List.take_append_drop, natFromDigitChars_digitsOf]

theorem parseNumericBody_C1 (ng : Bool) (c : Nat) (q : Int) :
    parseNumericBody ng (digitsOf c ++ expPartStr q) = some (.finite ng c q) := by
  obtain ⟨X, hX⟩ : ∃ X, expPartStr q = 'E' :: X := ⟨_, rfl⟩
  have htk : (digitsOf c ++ expPartStr q).takeWhile isDigitC = digitsOf c := by
    rw [takeWhile_append_all _ _ _ (digitsOf_all_digit c), hX,
      takeWhile_eq_nil_of_head isDigitC ('E' :: X) (fun cc tt hh => by cases hh; decide),
      List.append_nil]
  have hdr : (digitsOf c ++ expPartStr q).dropWhile isDigitC = 'E' :: X := by
    rw [dropWhile_append_all _ _ _ (digitsOf_all_digit c), hX,
      dropWhile_eq_self_of_head isDigitC ('E' :: X) (fun cc tt hh => by cases hh; decide)]
  have hpe : parseExpPart ('E' :: X) = some q := by
    rw [← hX, parseExpPart_expPartStr]
  simp only [parseNumericBody, htk, hdr]
  simp [hpe, natFromDigitChars_digitsOf]

theorem parseNumericBody_C2 (ng : Bool) (c : Nat) (q : Int) :
    parseNumericBody ng
      ((digitsOf c).take 1 ++ ('.' :: (digitsOf c).drop 1 ++ expPartStr q)) =
      some (.finite ng c (q - ((((digitsOf c).drop 1).length : Int)))) := by
  obtain ⟨X, hX⟩ : ∃ X, expPartStr q = 'E' :: X := ⟨_, rfl⟩
  have htake : ∀ ch ∈ (digitsOf c).take 1, isDigitC ch = true :=
    fun ch hch => digitsOf_all_digit c ch (List.take_subset _ _ hch)
  have hdropall : ∀ ch ∈ (digitsOf c).drop 1, isDigitC ch = true :=
    fun ch hch => digitsOf_all_digit c ch (List.drop_subset _ _ hch)
  have hassoc : ('.' :: (digitsOf c).drop 1 ++ expPartStr q) =
      '.' :: ((digitsOf c).drop 1 ++ expPartStr q) := by
    rw [List.cons_append]
  have htk : ((digitsOf c).take 1 ++ ('.' :: (digitsOf c).drop 1 ++ expPartStr q)).takeWhile
      isDigitC = (digitsOf c).take 1 := by
    rw [takeWhile_append_all _ _ _ htake, hassoc,
      takeWhile_eq_nil_of_head isDigitC ('.' :: ((digitsOf c).drop 1 ++ expPartStr q))
        (fun cc tt hh => by cases hh; decide),
      List.append_nil]
  have hdr : ((digitsOf c).take 1 ++ ('.' :: (digitsOf c).drop 1 ++ expPartStr q)).dropWhile
      isDigitC = '.' :: ((digitsOf c).drop 1 ++ expPartStr q) := by
    rw [dropWhile_append_all _ _ _ htake, hassoc,
      dropWhile_eq_self_of_head isDigitC ('.' :: ((digitsOf c).drop 1 ++ expPartStr q))
        (fun cc tt hh => by cases hh; decide)]
  have htl : ∀ ch ∈ (digitsOf c).tail, isDigitC ch = true := by
    intro ch hch
    exact hdropall ch (by rwa [List.drop_one])
  have hfp : ((digitsOf c).tail ++ expPartStr q).takeWhile isDigitC
      = (digitsOf c).tail := by
    rw [takeWhile_append_all _ _ _ htl, hX,
      takeWhile_eq_nil_of_head isDigitC ('E' :: X) (fun cc tt hh => by cases hh; decide),
      List.append_nil]
  have hr2 : ((digitsOf c).tail ++ expPartStr q).dropWhile isDigitC = 'E' :: X := by
    rw [dropWhile_append_all _ _ _ htl, hX,
      dropWhile_eq_self_of_head isDigitC ('E' :: X) (fun cc tt hh => by cases hh; decide)]
  have hpe : parseExpPart ('E' :: X) = some q := by
    rw [← hX, parseExpPart_expPartStr]
  have hcat : (digitsOf c).take 1 ++ (digitsOf c).tail = digitsOf c := by
    obtain ⟨d, u, hdu, _⟩ := exists_digit_head c
    rw [hdu]
    rfl
  simp only [parseNumericBody, htk, hdr]
  simp [hfp, hr2, hpe, hcat, natFromDigitChars_digitsOf]

theorem decimalOfString_sign_body (ng : Bool) (b : PyStr)
    (hd : ∃ d u, b = d :: u ∧ isDigitC d = true)
    (hall : AllSci ((if ng then ['-'] else []) ++ b)) :
    decimalOfString ((if ng then ['-'] else []) ++ b) = parseNumericBody ng b := by
  obtain ⟨d, u, rfl, hdig⟩ := hd
  cases ng with
  | true =>
      have hall' : AllSci ('-' :: d :: u) := by
        intro ch hch
        exact hall ch (by simpa using hch)
      have hws : ∀ c ∈ ('-' :: d :: u), isWsC c = false :=
        fun c hc => (sciChar_props c (hall' c hc)).1
      have hfu : ∀ c ∈ ('-' :: d :: u), decide (c ≠ '_') = true := fun c hc => by
        simpa using (sciChar_props c (hall' c hc)).2.2.2.2.2.2.2.2.1
      have hid : ((pyStrip ('-' :: d :: u)).filter (fun c => c ≠ '_')) = '-' :: d :: u := by
        rw [pyStrip_eq_self _ hws]
        exact List.filter_eq_self.mpr hfu
      have hsgn : signSplit ('-' :: d :: u) = (true, d :: u) := rfl
      show decimalOfString ('-' :: d :: u) = parseNumericBody true (d :: u)
      simp only [decimalOfString, hid, hsgn]
      simp [lookNum, hdig]
  | false =>
      have hall' : AllSci (d :: u) := by
        intro ch hch
        exact hall ch (by simpa using hch)
      have hws : ∀ c ∈ (d :: u), isWsC c = false :=
        fun c hc => (sciChar_props c (hall' c hc)).1
      have hfu : ∀ c ∈ (d :: u), decide (c ≠ '_') = true := fun c hc => by
        simpa using (sciChar_props c (hall' c hc)).2.2.2.2.2.2.2.2.1
      have hid : ((pyStrip (d :: u)).filter (fun c => c ≠ '_')) = d :: u := by
        rw [pyStrip_eq_self _ hws]
        exact List.filter_eq_self.mpr hfu
      have hsgn : signSplit (d :: u) = (false, d :: u) := by
        simp only [signSplit]
        split
        · rename_i t heq
          cases heq
          exact absurd hdig (by decide)
        · rename_i t heq
          cases heq
          exact absurd hdig (by decide)
        · rfl
      show decimalOfString (d :: u) = parseNumericBody false (d :: u)
      simp only [decimalOfString, hid, hsgn]
      simp [lookNum, hdig]

/-- Round trip at the `Decimal` level: parsing the scientific string of a
finite decimal recovers it exactly, and the printed string contains a digit. -/
theorem toSciString_finite_parse (ng : Bool) (c : Nat) (e : Int) :
    decimalOfString (toSciString (.finite ng c e)) = some (.finite ng c e) ∧
      ∃ ch ∈ toSciString (.finite ng c e), isDigitC ch = true := by
  have hall : AllSci (toSciString (.finite ng c e)) :=
    toSciString_finite_sciChar ng c e
  have hlen : 0 < (digitsOf c).length := List.length_pos.mpr (digitsOf_ne_nil c)
  by_cases h0 : e ≤ 0 ∧ (-6 : Int) < e + ((digitsOf c).length : Int)
  · by_cases hA : e + ((digitsOf c).length : Int) ≤ 0
    · have hsh := toSci_shape_A ng c e hA h0.2
      rw [hsh] at hall ⊢
      constructor
      · rw [decimalOfString_sign_body ng _ ⟨'0', _, rfl, by decide⟩ hall,
          parseNumericBody_A]
        simp only [Option.some.injEq, PyDecimal.finite.injEq]
        refine ⟨trivial, trivial, ?_⟩
        omega
      · exact ⟨'0', List.mem_append.mpr (Or.inr (List.mem_cons_self _ _)), by decide⟩
    · by_cases he0 : e = 0
      · subst he0
        obtain ⟨d, u, hdu, hdig⟩ := exists_digit_head c
        have hsh := toSci_shape_B1 ng c
        rw [hsh] at hall ⊢
        constructor
        · rw [decimalOfString_sign_body ng _ ⟨d, u, hdu, hdig⟩ hall,
            parseNumericBody_B1]
        · refine ⟨d, List.mem_append.mpr (Or.inr ?_), hdig⟩
          rw [hdu]
          exact List.mem_cons_self d u
      · have he : e < 0 := by omega
        have hB : 0 < e + ((digitsOf c).length : Int) := by omega
        have hsh := toSci_shape_B2 ng c e he hB
        rw [hsh] at hall ⊢
        have hKpos : 0 < (e + ((digitsOf c).length : Int)).toNat := by omega
        constructor
        · rw [decimalOfString_sign_body ng _
            (exists_digit_head_take c _ hKpos _) hall, parseNumericBody_B2]
          simp only [Option.some.injEq, PyDecimal.finite.injEq, List.length_drop]
          refine ⟨trivial, trivial, ?_⟩
          omega
        · obtain ⟨d, u, hdu, hdig⟩ := exists_digit_head_take c _ hKpos
            ('.' :: (digitsOf c).drop (e + ((digitsOf c).length : Int)).toNat)
          refine ⟨d, List.mem_append.mpr (Or.inr ?_), hdig⟩
          rw [hdu]
          exact List.mem_cons_self d u
  · by_cases hl1 : (digitsOf c).length = 1
    · have hsh := toSci_shape_C1 ng c e h0 hl1
      rw [hsh] at hall ⊢
      constructor
      · rw [decimalOfString_sign_body ng _ (exists_digit_head_append c _) hall,
          parseNumericBody_C1]
        simp only [Option.some.injEq, PyDecimal.finite.injEq]
        refine ⟨trivial, trivial, ?_⟩
        omega
      · obtain ⟨d, u, hdu, hdig⟩ := exists_digit_head_append c
          (expPartStr (e + ((digitsOf c).length : Int) - 1))
        refine ⟨d, List.mem_append.mpr (Or.inr ?_), hdig⟩
        rw [hdu]
        exact List.mem_cons_self d u
    · have hl2 : 1 < (digitsOf c).length := by omega
      have hsh := toSci_shape_C2 ng c e h0 hl2
      rw [hsh] at hall ⊢
      constructor
      · rw [decimalOfString_sign_body ng _
          (exists_digit_head_take c 1 (by omega) _) hall, parseNumericBody_C2]
        simp only [Option.some.injEq, PyDecimal.finite.injEq, List.length_drop]
        refine ⟨trivial, trivial, ?_⟩
        omega
      · obtain ⟨d, u, hdu, hdig⟩ := exists_digit_head_take c 1 (by omega)
          ('.' :: (digitsOf c).drop 1 ++
            expPartStr (e + ((digitsOf c).length : Int) - 1))
        refine ⟨d, List.mem_append.mpr (Or.inr ?_), hdig⟩
        rw [hdu]
        exact List.mem_cons_self d u

/-- C8 counterexample: for the input string `"NaN"` the round trip does not
compare equal: `Decimal("NaN")` prints back as `"NaN"`, re-parses to a quiet
NaN, and `NaN == NaN` is `False` in Python, so
`parse_decimal(str(parse_decimal(x))) == parse_decimal(x)` fails. -/
theorem claim_C8_counterexample :
    pyEq (parse_decimal (toSciString (parse_decimal (pstr "NaN"))))
      (parse_decimal (pstr "NaN")) = some false := by
  decide

/-- C8 (amended): decimal normalization is idempotent on every input string
whose parsed value is not a NaN: re-parsing the decimal string of the parsed
value yields a value that compares equal (`==`) to it. The unrestricted claim
fails only for NaN results, which never equal anything. -/
theorem claim_C8_idempotent (x : PyStr)
    (h : (parse_decimal x).isNan = false) :
    pyEq (parse_decimal (toSciString (parse_decimal x))) (parse_decimal x) =
      some true := by
  cases hd : parse_decimal x with
  | finite ng c e =>
      obtain ⟨h1, h2⟩ := toSciString_finite_parse ng c e
      rw [parse_decimal_eq_ofString _ (toSciString_finite_sciChar ng c e) h2, h1]
      show pyEq (.finite ng c e) (.finite ng c e) = some true
      simp [pyEq]
  | infinity ng =>
      rw [show parse_decimal (toSciString (.infinity ng)) = .infinity ng from by
        cases ng <;> decide]
      simp [pyEq]
  | nan ng sg p =>
      rw [hd] at h
      simp [PyDecimal.isNan] at h

/-- Witness for C8: the round trip holds at the concrete input `"1,234.56"`,
whose parsed value `Decimal("1234.56")` is not a NaN. -/
theorem claim_C8_witness :
    (parse_decimal (pstr "1,234.56")).isNan = false ∧
      pyEq (parse_decimal (toSciString (parse_decimal (pstr "1,234.56"))))
        (parse_decimal (pstr "1,234.56")) = some true :=
  ⟨by decide, claim_C8_idempotent (pstr "1,234.56") (by decide)⟩
